import Mathlib

/-
Verification of the SnuPL/1 AST middle-end (src/ast.cpp): a shallow
embedding of the type checker and the TAC lowerer, with proofs of the
behavioural properties stated in the specification.

Conventions of the embedding:
  * machine pointers that may be NULL become `Option`;
  * an `assert` failure (a contract violation that aborts the process)
    becomes the `none` result of an `Option`-valued operation;
  * the diagnostic out-parameters `(CToken *t, string *msg)` become the
    error payload `Option (Nat × String)` of an `Except` result, where
    `none` records a `return false` path that writes no diagnostic;
  * tokens are represented by natural-number identifiers.
-/

namespace SnuPL

/-- Types vended by the type manager (`CTypeManager`): the primitive
null/int/char/bool types, pointer types and array types.  The type
manager itself is not part of src/, so the structure is modelled from
the spec (§4.1). -/
inductive CType where
  | tNull : CType
  | tInt : CType
  | tChar : CType
  | tBool : CType
  | tPtr (base : CType) : CType
  | tArr (nelem : Nat) (inner : CType) : CType
deriving DecidableEq

/-- Modelled from the spec: the type manager's `Match` predicate is
structural equality (the spec's array-length wildcard is chosen by the
parser and is not exercised by any construct the claims touch). -/
def CType.Match (a b : CType) : Bool := decide (a = b)

/-- Modelled from the spec: `Match` applied to a NULL `CType*` argument
yields false (the type manager is outside src/). -/
def matchO (a : CType) (b : Option CType) : Bool :=
  match b with
  | some t => a.Match t
  | none => false

/-- Modelled from the spec: `Match` called on an lhs that may be NULL. -/
def matchO2 (a : Option CType) (b : CType) : Bool :=
  match a with
  | some t => t.Match b
  | none => false

/-- Modelled from the spec: `Match` with both sides possibly NULL. -/
def matchOO (a b : Option CType) : Bool :=
  match a, b with
  | some x, some y => x.Match y
  | _, _ => false

/-- CType::IsArray. -/
def CType.IsArray : CType → Bool
  | .tArr _ _ => true
  | _ => false

/-- CType::IsPointer. -/
def CType.IsPointer : CType → Bool
  | .tPtr _ => true
  | _ => false

/-- IsArray on a possibly NULL type. -/
def isArrayO (t : Option CType) : Bool :=
  match t with
  | some x => x.IsArray
  | none => false

/-- IsPointer on a possibly NULL type. -/
def isPointerO (t : Option CType) : Bool :=
  match t with
  | some x => x.IsPointer
  | none => false

/-- Modelled from the spec: the scalar types are int, char and bool. -/
def CType.IsScalar : CType → Bool
  | .tInt => true
  | .tChar => true
  | .tBool => true
  | _ => false

/-- Modelled from the spec: `GetSize` in bytes.  Only the size of the
innermost scalar element of an array is consumed by the embedded code
(array address lowering), so composite sizes are irrelevant here. -/
def CType.GetSize : CType → Int
  | .tInt => 4
  | .tChar => 1
  | .tBool => 1
  | _ => 0

/-- Number of array dimensions of a type (the rank an array designator
must exhaust). -/
def CType.rank : CType → Nat
  | .tArr _ inner => inner.rank + 1
  | _ => 0

/-- The innermost non-array type reached by unwrapping all array levels
(the variable `t` after the while loop of CAstArrayDesignator::ToTac). -/
def CType.innerAfterArrays : CType → CType
  | .tArr _ inner => inner.innerAfterArrays
  | t => t

/-- A non-procedure symbol (CSymbol): a name and a data type that may be
NULL. -/
structure Sym where
  name : String
  dataType : Option CType
deriving DecidableEq

/-- A procedure parameter symbol (CSymParam). -/
structure ParamSym where
  name : String
  dataType : Option CType
deriving DecidableEq

/-- A procedure symbol (CSymProc): return data type (the null type for
procedures) and parameter list. -/
structure ProcSym where
  name : String
  returnType : CType
  params : List ParamSym
deriving DecidableEq

/-- The binary, unary and special operators of the AST (EOperation). -/
inductive EOp where
  | opAdd | opSub | opMul | opDiv
  | opAnd | opOr
  | opEqual | opNotEqual
  | opLessThan | opLessEqual | opBiggerThan | opBiggerEqual
  | opNeg | opPos | opNot
  | opAddress | opDeref | opCast
deriving DecidableEq

/-- The expression nodes of the AST (the CAstExpression hierarchy).
Every node carries its token (a Nat identifier).  An array designator
carries its symbol, index list and the `_done` flag. -/
inductive Expr where
  | binaryOp (tok : Nat) (op : EOp) (l r : Expr) : Expr
  | unaryOp (tok : Nat) (op : EOp) (e : Expr) : Expr
  | specialOp (tok : Nat) (op : EOp) (e : Expr) (castT : Option CType) : Expr
  | funcCall (tok : Nat) (sym : ProcSym) (args : List Expr) : Expr
  | designator (tok : Nat) (sym : Sym) : Expr
  | arrayDesignator (tok : Nat) (sym : Sym) (idx : List Expr) (done : Bool) : Expr
  | constant (tok : Nat) (ty : CType) (value : Int) : Expr
  | stringConstant (tok : Nat) (sym : Sym) (ty : CType) : Expr

/-- GetToken of an expression node. -/
def Expr.tok : Expr → Nat
  | .binaryOp t _ _ _ => t
  | .unaryOp t _ _ => t
  | .specialOp t _ _ _ => t
  | .funcCall t _ _ => t
  | .designator t _ => t
  | .arrayDesignator t _ _ _ => t
  | .constant t _ _ => t
  | .stringConstant t _ _ => t

/-- Result type of CAstBinaryOp::GetType: int for the arithmetic
operators, bool for the logical and relational ones, NULL otherwise. -/
def binOpResultType : EOp → Option CType
  | .opAdd => some .tInt
  | .opMul => some .tInt
  | .opSub => some .tInt
  | .opDiv => some .tInt
  | .opAnd => some .tBool
  | .opOr => some .tBool
  | .opEqual => some .tBool
  | .opNotEqual => some .tBool
  | .opLessThan => some .tBool
  | .opLessEqual => some .tBool
  | .opBiggerThan => some .tBool
  | .opBiggerEqual => some .tBool
  | _ => none

/-- Result type of CAstUnaryOp::GetType. -/
def unOpResultType : EOp → Option CType
  | .opNeg => some .tInt
  | .opPos => some .tInt
  | .opNot => some .tBool
  | _ => none

/-- The for loop of CAstArrayDesignator::GetType: unwrap one array level
per index, NULL as soon as a non-array is indexed. -/
def unwrapArrays : CType → Nat → Option CType
  | t, 0 => some t
  | .tArr _ inner, k + 1 => unwrapArrays inner k
  | _, _ + 1 => none

/-- GetType of an expression node, following each node class's override
(NULL results become `none`). -/
def Expr.getType : Expr → Option CType
  | .binaryOp _ op _ _ => binOpResultType op
  | .unaryOp _ op _ => unOpResultType op
  | .specialOp _ op e ct =>
    match op with
    | .opAddress =>
      match e.getType with
      | some t => some (.tPtr t)
      | none => none
    | .opDeref =>
      match e.getType with
      | some (.tPtr b) => some b
      | _ => none
    | .opCast => ct
    | _ => none
  | .funcCall _ s _ => some s.returnType
  | .designator _ s => s.dataType
  | .arrayDesignator _ s idx _ =>
    match s.dataType with
    | none => none
    | some t0 =>
      let t1 := match t0 with
        | .tPtr b => b
        | t => t
      unwrapArrays t1 idx.length
  | .constant _ ty _ => some ty
  | .stringConstant _ _ ty => some ty

/-- Diagnostic written by a failing type check: the offending token and
the message, or `none` for a `return false` path that writes nothing
(also used for an assert abort). -/
abbrev TCErr := Option (Nat × String)

/-- CAstConstant::TypeCheck: the value must fit the declared type. -/
def constantTypeCheck (tk : Nat) (ty : CType) (v : Int) : Except TCErr Unit :=
  if ty.Match .tInt then
    if v < -2147483648 ∨ v > 2147483647 then
      .error (some (tk, "invalid value for integer type constant"))
    else .ok ()
  else if ty.Match .tChar then
    if v < 0 ∨ v > 255 then
      .error (some (tk, "invalid value for character type constant"))
    else .ok ()
  else if ty.Match .tBool then
    if v ≠ 0 ∧ v ≠ 1 then
      .error (some (tk, "invalid value for boolean type constant"))
    else .ok ()
  else
    .error (some (tk, "invalid type for constant"))

/-- CAstBinaryOp::TypeCheck after both children checked: the per-operator
class rules. -/
def binOpCheck (op : EOp) (l r : Expr) : Except TCErr Unit :=
  let leftType := l.getType
  let rightType := r.getType
  match op with
  | .opAdd | .opMul | .opSub | .opDiv =>
    if ¬ (matchO2 leftType .tInt) then
      .error (some (l.tok, "expected integer type expression in left operand"))
    else if ¬ (matchO2 rightType .tInt) then
      .error (some (r.tok, "expected integer type expression in right operand"))
    else .ok ()
  | .opAnd | .opOr =>
    if ¬ (matchO2 leftType .tBool) then
      .error (some (l.tok, "expected boolean type expression in left operand"))
    else if ¬ (matchO2 rightType .tBool) then
      .error (some (r.tok, "expected boolean type expression in right operand"))
    else .ok ()
  | .opEqual | .opNotEqual =>
    if ¬ (matchO2 leftType .tBool ∨ matchO2 leftType .tChar ∨ matchO2 leftType .tInt) then
      .error (some (l.tok, "expected boolean or character or integer type expression in left operand"))
    else if ¬ (matchOO rightType leftType) then
      .error (some (r.tok, "different type between right and left operand"))
    else .ok ()
  | .opBiggerEqual | .opBiggerThan | .opLessEqual | .opLessThan =>
    if ¬ (matchO2 leftType .tChar ∨ matchO2 leftType .tInt) then
      .error (some (l.tok, "expected character or integer type expression in left operand"))
    else if ¬ (matchOO rightType leftType) then
      .error (some (r.tok, "different type between right and left operand"))
    else .ok ()
  | _ => .error none

/-- CAstUnaryOp::TypeCheck after the operand checked. -/
def unOpCheck (op : EOp) (e : Expr) : Except TCErr Unit :=
  match op with
  | .opNeg | .opPos =>
    if ¬ (matchO2 e.getType .tInt) then
      .error (some (e.tok, "expected integer type expression in the operand"))
    else .ok ()
  | .opNot =>
    if ¬ (matchO2 e.getType .tBool) then
      .error (some (e.tok, "expected boolean type expression in the operand"))
    else .ok ()
  | _ => .error none

/-- The parameter/argument matching loop of CAstFunctionCall::TypeCheck.
A NULL parameter type fails with the argument's token; a failed `Match`
fails with the call's own token. -/
def paramCheck (callTok : Nat) : List (ParamSym × Expr) → Except TCErr Unit
  | [] => .ok ()
  | (p, a) :: rest =>
    match p.dataType with
    | none => .error (some (a.tok, "argument's type is invalid"))
    | some pt =>
      if ¬ (matchO pt a.getType) then
        .error (some (callTok, "argument's type does not match with the parameter"))
      else paramCheck callTok rest

mutual

/-- TypeCheck of an expression node (CAstExpression::TypeCheck
overrides), writing the first failing token and message. -/
def exprTypeCheck : Expr → Except TCErr Unit
  | .binaryOp _ op l r =>
    match exprTypeCheck l with
    | .error w => .error w
    | .ok _ =>
      match exprTypeCheck r with
      | .error w => .error w
      | .ok _ => binOpCheck op l r
  | .unaryOp _ op e =>
    match exprTypeCheck e with
    | .error w => .error w
    | .ok _ => unOpCheck op e
  | .specialOp tk op e _ =>
    match exprTypeCheck e with
    | .error w => .error w
    | .ok _ =>
      match op with
      | .opAddress =>
        if ¬ (isArrayO e.getType) then
          .error (some (tk, "opAddress is only used on array type"))
        else .ok ()
      | .opDeref =>
        if ¬ (isPointerO e.getType) then
          .error (some (tk, "opDeref should be used on pointer type"))
        else .ok ()
      | .opCast => .error (some (tk, "opCast is never used"))
      | _ => .error none
  | .funcCall tk sym args => funcCallTypeCheck tk sym args
  | .designator tk s =>
    match s.dataType with
    | none => .error (some (tk, "Invalid Type for the symbol"))
    | some _ => .ok ()
  | .arrayDesignator tk s idx done =>
    if ¬ done then .error none
    else
      match s.dataType with
      | none => .error none
      | some t0 =>
        let t1 := match t0 with
          | .tPtr b => b
          | t => t
        if ¬ t1.IsArray then
          .error (some (tk, "symbol's type should be array or pointer of array"))
        else
          match idxCheck idx with
          | .error w => .error w
          | .ok _ =>
            match (Expr.arrayDesignator tk s idx done).getType with
            | none => .error (some (tk, "Too many indices"))
            | some t =>
              if t.IsArray then .error (some (tk, "Not enough indices"))
              else .ok ()
  | .constant tk ty v => constantTypeCheck tk ty v
  | .stringConstant _ _ _ => .ok ()

/-- CAstFunctionCall::TypeCheck: arity check, then each argument, then
each parameter/argument type match. -/
def funcCallTypeCheck (tk : Nat) (sym : ProcSym) (args : List Expr) :
    Except TCErr Unit :=
  if sym.params.length ≠ args.length then
    .error (some (tk, "number of arguments does not match the number of parameters"))
  else
    match argsCheck args with
    | .error w => .error w
    | .ok _ => paramCheck tk (sym.params.zip args)

/-- The argument loop of CAstFunctionCall::TypeCheck. -/
def argsCheck : List Expr → Except TCErr Unit
  | [] => .ok ()
  | a :: rest =>
    match exprTypeCheck a with
    | .error w => .error w
    | .ok _ => argsCheck rest

/-- The index loop of CAstArrayDesignator::TypeCheck: each index must
type-check and be an integer. -/
def idxCheck : List Expr → Except TCErr Unit
  | [] => .ok ()
  | e :: rest =>
    match exprTypeCheck e with
    | .error w => .error w
    | .ok _ =>
      if ¬ (matchO2 e.getType .tInt) then
        .error (some (e.tok, "index in array designator must be integer type"))
      else idxCheck rest

end

/-- The statement nodes (CAstStatement hierarchy).  The intrusive
`next` chaining of the source is represented by `List Stmt` bodies; a
return statement carries its enclosing scope's declared return type
(`GetScope()->GetType()`). -/
inductive Stmt where
  | assign (tok : Nat) (lhs : Expr) (rhs : Expr) : Stmt
  | callS (tok : Nat) (call : Expr) : Stmt
  | ret (tok : Nat) (retType : CType) (expr : Option Expr) : Stmt
  | ifStat (tok : Nat) (cond : Expr) (ifBody elseBody : List Stmt) : Stmt
  | whileStat (tok : Nat) (cond : Expr) (body : List Stmt) : Stmt
  | breakStat (tok : Nat) : Stmt

mutual

/-- TypeCheck of a statement node, mirroring each override in the
source.  Note that CAstStatIf::TypeCheck iterates the if-body with a
`while` loop but the else-body only with an `if`, so only the first
else-body statement is checked there. -/
def stmtTypeCheck : Stmt → Except TCErr Unit
  | .assign _ lhs rhs =>
    match exprTypeCheck lhs with
    | .error w => .error w
    | .ok _ =>
      match exprTypeCheck rhs with
      | .error w => .error w
      | .ok _ =>
        match lhs.getType with
        | none => .error none
        | some lhsType =>
          if ¬ lhsType.IsScalar then
            .error (some (rhs.tok, "left handside designator must be scalar type"))
          else if ¬ (matchO2 rhs.getType lhsType) then
            .error (some (rhs.tok, "right handside expression must be same type as left handside designator"))
          else .ok ()
  | .callS _ call => exprTypeCheck call
  | .ret tok st e =>
    if st.Match .tNull then
      match e with
      | some ex => .error (some (ex.tok, "superfluous expression after return."))
      | none => .ok ()
    else
      match e with
      | none => .error (some (tok, "expression expected after return."))
      | some ex =>
        match exprTypeCheck ex with
        | .error w => .error w
        | .ok _ =>
          if ¬ (matchO st ex.getType) then
            .error (some (ex.tok, "return type mismatch."))
          else .ok ()
  | .ifStat _ cond ifBody elseBody =>
    match exprTypeCheck cond with
    | .error w => .error w
    | .ok _ =>
      match stmtSeqCheck ifBody with
      | .error w => .error w
      | .ok _ =>
        match (match elseBody with
               | [] => Except.ok ()
               | s :: _ => stmtTypeCheck s) with
        | .error w => .error w
        | .ok _ =>
          if ¬ (matchO2 cond.getType .tBool) then
            .error (some (cond.tok, "expected boolean type condition"))
          else .ok ()
  | .whileStat _ cond body =>
    match exprTypeCheck cond with
    | .error w => .error w
    | .ok _ =>
      match stmtSeqCheck body with
      | .error w => .error w
      | .ok _ =>
        if ¬ (matchO2 cond.getType .tBool) then
          .error (some (cond.tok, "expected boolean type condition"))
        else .ok ()
  | .breakStat _ => .ok ()

/-- The `while (chk && n != NULL)` statement-list loops of the
statement type checks. -/
def stmtSeqCheck : List Stmt → Except TCErr Unit
  | [] => .ok ()
  | s :: ss =>
    match stmtTypeCheck s with
    | .error w => .error w
    | .ok _ => stmtSeqCheck ss

end

/-- Observable outcome of one `TypeCheck` call made by
CAstScope::TypeCheck on a statement or a child scope: it returned a
boolean after writing `w` into the out-parameters (`none` when it wrote
nothing), or it threw an exception. -/
inductive ChkOutcome where
  | ret (b : Bool) (w : TCErr) : ChkOutcome
  | thrown : ChkOutcome
deriving DecidableEq

/-- The two result-guarded loops of CAstScope::TypeCheck (statements,
then children), running over the outcomes of the individual checks.
The state is the current `result` flag together with the value held by
the `(t, msg)` out-parameters; an exception aborts the traversal with
`result = false` (the catch-all handler). -/
def scopeCheckRun : List ChkOutcome → Bool × TCErr → Bool × TCErr
  | [], st => st
  | o :: os, (res, w) =>
    if res then
      match o with
      | .ret b w' =>
        scopeCheckRun os (b, match w' with
                            | some e => some e
                            | none => w)
      | .thrown => (false, w)
    else (res, w)

/-- Outcome of an embedded (exception-free) check. -/
def outcomeOf (r : Except TCErr Unit) : ChkOutcome :=
  match r with
  | .ok _ => .ret true none
  | .error w => .ret false w

/-- A scope: its statement sequence and its nested child scopes in
declaration order (CAstScope). -/
inductive Scope where
  | mk (stmts : List Stmt) (children : List Scope) : Scope

/-- CAstScope::TypeCheck: all statements in order, then all children in
declaration order, first failure wins. -/
def Scope.typeCheck : Scope → Bool × TCErr
  | .mk stmts children =>
    scopeCheckRun
      (stmts.map (fun s => outcomeOf (stmtTypeCheck s)) ++
       children.attach.map (fun c => match c.1.typeCheck with
                                     | (b, w) => ChkOutcome.ret b w))
      (true, none)
termination_by s => sizeOf s
decreasing_by
  have h := List.sizeOf_lt_of_mem c.2
  simp only [Scope.mk.sizeOf_spec]
  omega

/-- The C cast `(int)` applied to a 64-bit value, as used by
CAstConstant::ToTac: reduction modulo 2^32 into [-2^31, 2^31). -/
def toInt32 (v : Int) : Int := (v + 2147483648) % 4294967296 - 2147483648

/-- A named TAC operand: a program symbol (CTacName) or a generated
temporary (CTacTemp, which carries the type it was created with). -/
inductive TacName where
  | sym (s : Sym) : TacName
  | temp (id : Nat) (ty : CType) : TacName
deriving DecidableEq

/-- A TAC address operand (CTacAddr*): the NULL pointer, a constant, a
name, or a reference `(base, original symbol)` (CTacReference). -/
inductive TacAddr where
  | null : TacAddr
  | const (v : Int) : TacAddr
  | name (n : TacName) : TacAddr
  | ref (base : TacName) (orig : Sym) : TacAddr
deriving DecidableEq

/-- A TAC instruction (CTacInstr), with labels as Nat identifiers.  A
`condBr` is a comparison opcode used as a conditional jump to its
target label, falling through on false. -/
inductive TacInstr where
  | labelDef (l : Nat) : TacInstr
  | goto (l : Nat) : TacInstr
  | condBr (op : EOp) (target : Nat) (s1 s2 : TacAddr) : TacInstr
  | assign (dst src : TacAddr) : TacInstr
  | binArith (op : EOp) (dst s1 s2 : TacAddr) : TacInstr
  | unArith (op : EOp) (dst src : TacAddr) : TacInstr
  | retInstr (src : TacAddr) : TacInstr
  | param (i : Int) (src : TacAddr) : TacInstr
  | callInstr (dst : TacAddr) (f : ProcSym) : TacInstr
deriving DecidableEq

/-- The TAC sink (CCodeBlock): the emitted instruction list, the label
and temporary counters, and the `DIM`/`DOFS` helper procedure symbols
the owner's symbol table resolves (FindSymbol in
CAstArrayDesignator::ToTac; modelled as always present since the
runtime registers both). -/
structure CodeBlock where
  instrs : List TacInstr
  nextLabel : Nat
  nextTemp : Nat
  dimSym : ProcSym
  dofsSym : ProcSym
deriving DecidableEq

/-- CCodeBlock::CreateLabel. -/
def CodeBlock.createLabel (cb : CodeBlock) : Nat × CodeBlock :=
  (cb.nextLabel, { cb with nextLabel := cb.nextLabel + 1 })

/-- CCodeBlock::CreateTemp. -/
def CodeBlock.createTemp (cb : CodeBlock) (ty : CType) : TacName × CodeBlock :=
  (.temp cb.nextTemp ty, { cb with nextTemp := cb.nextTemp + 1 })

/-- CCodeBlock::AddInstr. -/
def CodeBlock.addInstr (cb : CodeBlock) (i : TacInstr) : CodeBlock :=
  { cb with instrs := cb.instrs ++ [i] }

/-- The array-pointer preamble of CAstArrayDesignator::ToTac (lines
1800-1807): if the symbol is a pointer, the designator itself is the
array pointer and the pointed-to type is unwrapped; otherwise the
pointer is Address-of the designator.  A NULL data type (which the
source would dereference) yields `none`. -/
def arrayPointerParts (s : Sym) : Option (CType × Expr) :=
  match s.dataType with
  | none => none
  | some (.tPtr base) => some (base, .designator 0 s)
  | some t => some (t, .specialOp 0 .opAddress (.designator 0 s) none)

/-- The index-padding while loop of CAstArrayDesignator::ToTac (lines
1813-1820): walk the array levels of the type; whenever the position
counter reaches the end of the index list, push a zero integer
constant.  In the source this push_back mutates the node's `_idx`
vector in place. -/
def fillIndices : CType → Nat → List Expr → List Expr
  | .tArr _ inner, cnt, idx =>
    let idx' := if cnt ≥ idx.length
                then idx ++ [Expr.constant 0 .tInt 0]
                else idx
    fillIndices inner (cnt + 1) idx'
  | _, _, idx => idx

/-- A `DIM(arrayPointer, k)` call node as built at lines 1838-1840. -/
def dimCallE (dimSym : ProcSym) (arrayPointer : Expr) (k : Int) : Expr :=
  .funcCall 0 dimSym [arrayPointer, .constant 0 .tInt k]

/-- The offset-building for loop of CAstArrayDesignator::ToTac (lines
1829-1843): at each position add the index (the position-0 index
replaces the accumulator, which the source leaves uninitialized and
never reads for a nonempty list), then multiply by the element size at
the last position and by `DIM(ptr, i+2)` elsewhere. -/
def buildOffsetGo (dimSym : ProcSym) (ap : Expr) (size : Int) :
    Expr → Nat → List Expr → Expr
  | acc, _, [] => acc
  | acc, i, e :: rest =>
    let acc1 := if i = 0 then e else .binaryOp 0 .opAdd acc e
    let acc2 := if rest.isEmpty
                then Expr.binaryOp 0 .opMul acc1 (.constant 0 .tInt size)
                else Expr.binaryOp 0 .opMul acc1 (dimCallE dimSym ap ((i : Int) + 2))
    buildOffsetGo dimSym ap size acc2 (i + 1) rest

/-- The complete synthetic address expression of
CAstArrayDesignator::ToTac (lines 1829-1849):
`arrayPointer + (offset + DOFS(arrayPointer))`. -/
def arrayAddrExpr (dimSym dofsSym : ProcSym) (ap : Expr) (size : Int)
    (idx : List Expr) : Expr :=
  let offset := buildOffsetGo dimSym ap size (.constant 0 .tInt 0) 0 idx
  let dofsCall := Expr.funcCall 0 dofsSym [ap]
  .binaryOp 0 .opAdd ap (.binaryOp 0 .opAdd offset dofsCall)

/-- Type used for CreateTemp when the source passes a GetType() result
that may be NULL (modelled as the null type). -/
def typeOrNull (t : Option CType) : CType :=
  match t with
  | some ty => ty
  | none => .tNull

mutual

/-- Value-mode lowering `ToTac(cb)` of an expression node, mirroring
each override in the source.  The fuel argument makes the recursion of
CAstArrayDesignator::ToTac through its freshly built synthetic
expression tree well-founded; fuel exhaustion yields `none`, as does an
assert abort. -/
def exprToTac : Nat → Expr → CodeBlock → Option (TacAddr × CodeBlock)
  | 0, _, _ => none
  | n + 1, e, cb =>
    match e with
    | .binaryOp tk op l r =>
      if matchO .tBool (Expr.binaryOp tk op l r).getType then
        let (ret, cb0) := cb.createTemp .tBool
        let (tL, cb1) := cb0.createLabel
        let (fL, cb2) := cb1.createLabel
        let (nL, cb3) := cb2.createLabel
        match exprToTacJ n (.binaryOp tk op l r) cb3 tL fL with
        | none => none
        | some cb4 =>
          some (.name ret,
            (((((cb4.addInstr (.labelDef tL)).addInstr
              (.assign (.name ret) (.const 1))).addInstr
              (.goto nL)).addInstr
              (.labelDef fL)).addInstr
              (.assign (.name ret) (.const 0))).addInstr
              (.labelDef nL))
      else
        match exprToTac n l cb with
        | none => none
        | some (lhs, cb1) =>
          match exprToTac n r cb1 with
          | none => none
          | some (rhs, cb2) =>
            let (ret, cb3) :=
              cb2.createTemp (typeOrNull (Expr.binaryOp tk op l r).getType)
            some (.name ret, cb3.addInstr (.binArith op (.name ret) lhs rhs))
    | .unaryOp tk op o =>
      if op = .opNeg then
        match exprToTac n o cb with
        | none => none
        | some (v, cb1) =>
          let (ret, cb2) :=
            cb1.createTemp (typeOrNull (Expr.unaryOp tk op o).getType)
          some (.name ret, cb2.addInstr (.unArith op (.name ret) v))
      else if op = .opPos then exprToTac n o cb
      else
        let (ret, cb0) := cb.createTemp .tBool
        let (tL, cb1) := cb0.createLabel
        let (fL, cb2) := cb1.createLabel
        let (nL, cb3) := cb2.createLabel
        match exprToTacJ n (.unaryOp tk op o) cb3 tL fL with
        | none => none
        | some cb4 =>
          some (.name ret,
            (((((cb4.addInstr (.labelDef tL)).addInstr
              (.assign (.name ret) (.const 1))).addInstr
              (.goto nL)).addInstr
              (.labelDef fL)).addInstr
              (.assign (.name ret) (.const 0))).addInstr
              (.labelDef nL))
    | .specialOp tk op o ct =>
      match exprToTac n o cb with
      | none => none
      | some (v, cb1) =>
        let (tmp, cb2) :=
          cb1.createTemp (typeOrNull (Expr.specialOp tk op o ct).getType)
        some (.name tmp, cb2.addInstr (.unArith op (.name tmp) v))
    | .funcCall _ sym args =>
      if CType.tNull.Match sym.returnType then
        match paramsRevToTac n args.enum.reverse cb with
        | none => none
        | some cb1 => some (.null, cb1.addInstr (.callInstr .null sym))
      else
        let (d, cb0) := cb.createTemp sym.returnType
        match paramsRevToTac n args.enum.reverse cb0 with
        | none => none
        | some cb1 => some (.name d, cb1.addInstr (.callInstr (.name d) sym))
    | .designator _ s => some (.name (.sym s), cb)
    | .arrayDesignator _ s idx _ =>
      match arrayPointerParts s with
      | none => none
      | some (t0, ap) =>
        match t0 with
        | .tArr k0 inner0 =>
          let arrType := CType.tArr k0 inner0
          let idx' := fillIndices arrType 0 idx
          let size := (arrType.innerAfterArrays).GetSize
          match exprToTac n (arrayAddrExpr cb.dimSym cb.dofsSym ap size idx') cb with
          | none => none
          | some (r, cb1) =>
            match r with
            | .name nm => some (.ref nm s, cb1)
            | .ref b _ => some (.ref b s, cb1)
            | _ =>
              let (tmp, cb2) := cb1.createTemp .tInt
              some (.ref tmp s, cb2.addInstr (.assign (.name tmp) r))
        | _ => none
    | .constant _ _ v => some (.const (toInt32 v), cb)
    | .stringConstant _ s _ => some (.name (.sym s), cb)

/-- Jumping-mode lowering `ToTac(cb, ltrue, lfalse)` of an expression
node.  CAstSpecialOp and CAstStringConstant keep the base class's
no-op jumping lowering. -/
def exprToTacJ : Nat → Expr → CodeBlock → Nat → Nat → Option CodeBlock
  | 0, _, _, _, _ => none
  | n + 1, e, cb, lt, lf =>
    match e with
    | .binaryOp tk op l r =>
      if ¬ (matchO .tBool (Expr.binaryOp tk op l r).getType) then none
      else if op = .opAnd ∨ op = .opOr then
        let (mid, cb1) := cb.createLabel
        match (if op = .opAnd then exprToTacJ n l cb1 mid lf
               else exprToTacJ n l cb1 lt mid) with
        | none => none
        | some cb2 => exprToTacJ n r (cb2.addInstr (.labelDef mid)) lt lf
      else
        match exprToTac n l cb with
        | none => none
        | some (lhs, cb1) =>
          match exprToTac n r cb1 with
          | none => none
          | some (rhs, cb2) =>
            some ((cb2.addInstr (.condBr op lt lhs rhs)).addInstr (.goto lf))
    | .unaryOp tk op o =>
      if ¬ (matchO .tBool (Expr.unaryOp tk op o).getType) then none
      else exprToTacJ n o cb lf lt
    | .specialOp _ _ _ _ => some cb
    | .funcCall tk sym args =>
      if ¬ (matchO .tBool (Expr.funcCall tk sym args).getType) then none
      else
        match exprToTac n (.funcCall tk sym args) cb with
        | none => none
        | some (dst, cb1) =>
          some ((cb1.addInstr (.condBr .opEqual lt dst (.const 1))).addInstr
                (.goto lf))
    | .designator tk s =>
      if ¬ (matchO .tBool (Expr.designator tk s).getType) then none
      else
        match exprToTac n (.designator tk s) cb with
        | none => none
        | some (v, cb1) =>
          some ((cb1.addInstr (.condBr .opEqual lt v (.const 1))).addInstr
                (.goto lf))
    | .arrayDesignator tk s idx dn =>
      match exprToTac n (.arrayDesignator tk s idx dn) cb with
      | none => none
      | some (v, cb1) =>
        some ((cb1.addInstr (.condBr .opEqual lt v (.const 1))).addInstr
              (.goto lf))
    | .constant tk ty v =>
      if ¬ (matchO .tBool (Expr.constant tk ty v).getType) then none
      else
        match exprToTac n (.constant tk ty v) cb with
        | none => none
        | some (c, cb1) =>
          some ((cb1.addInstr (.condBr .opEqual lt c (.const 1))).addInstr
                (.goto lf))
    | .stringConstant _ _ _ => some cb

/-- The reverse-order argument loop of CAstFunctionCall::ToTac: for i
from n-1 down to 0, lower the argument and emit `Param(i, arg_i)`. -/
def paramsRevToTac : Nat → List (Nat × Expr) → CodeBlock → Option CodeBlock
  | _, [], cb => some cb
  | n, (i, a) :: rest, cb =>
    match exprToTac n a cb with
    | none => none
    | some (v, cb1) => paramsRevToTac n rest (cb1.addInstr (.param (i : Int) v))

end

mutual

/-- Statement lowering `ToTac(cb, next, end)`: `next` is the
normal-completion label, `end` the break target (NULL outside a
loop). -/
def stmtToTac : Nat → Stmt → CodeBlock → Nat → Option Nat → Option CodeBlock
  | 0, _, _, _, _ => none
  | n + 1, s, cb, nx, en =>
    match s with
    | .assign _ lhs rhs =>
      match exprToTac n lhs cb with
      | none => none
      | some (dest, cb1) =>
        match exprToTac n rhs cb1 with
        | none => none
        | some (src, cb2) =>
          some ((cb2.addInstr (.assign dest src)).addInstr (.goto nx))
    | .callS _ call =>
      match exprToTac n call cb with
      | none => none
      | some (_, cb1) => some (cb1.addInstr (.goto nx))
    | .ret _ _ oe =>
      match oe with
      | some e =>
        match exprToTac n e cb with
        | none => none
        | some (src, cb1) =>
          some ((cb1.addInstr (.retInstr src)).addInstr (.goto nx))
      | none => some ((cb.addInstr (.retInstr .null)).addInstr (.goto nx))
    | .ifStat _ cond ifBody elseBody =>
      let (ifL, cbA) := cb.createLabel
      let (elseL, cbB) := cbA.createLabel
      let (endL, cbC) := cbB.createLabel
      match exprToTacJ n cond cbC ifL elseL with
      | none => none
      | some cb1 =>
        match stmtListToTac n ifBody (cb1.addInstr (.labelDef ifL)) en with
        | none => none
        | some cb2 =>
          match stmtListToTac n elseBody
                ((cb2.addInstr (.goto endL)).addInstr (.labelDef elseL)) en with
          | none => none
          | some cb3 =>
            some ((cb3.addInstr (.labelDef endL)).addInstr (.goto nx))
    | .whileStat _ cond body =>
      let (re, cbA) := cb.createLabel
      let (bodyL, cbB) := cbA.createLabel
      let (loopEnd, cbC) := cbB.createLabel
      match exprToTacJ n cond (cbC.addInstr (.labelDef re)) bodyL loopEnd with
      | none => none
      | some cb1 =>
        match stmtListToTac n body (cb1.addInstr (.labelDef bodyL))
              (some loopEnd) with
        | none => none
        | some cb2 =>
          some (((cb2.addInstr (.goto re)).addInstr
                 (.labelDef loopEnd)).addInstr (.goto nx))
    | .breakStat _ =>
      match en with
      | some e => some (cb.addInstr (.goto e))
      | none => none

/-- The per-statement loops of scope, if and while lowering: each
statement gets a fresh `next` label which is emitted after it. -/
def stmtListToTac : Nat → List Stmt → CodeBlock → Option Nat → Option CodeBlock
  | _, [], cb, _ => some cb
  | n, s :: ss, cb, en =>
    let (nx, cb1) := cb.createLabel
    match stmtToTac n s cb1 nx en with
    | none => none
    | some cb2 => stmtListToTac n ss (cb2.addInstr (.labelDef nx)) en

end

/-- Abstract valuation for the synthetic address expressions built by
CAstArrayDesignator::ToTac: values of designators, of Address-of
designators, of the runtime helpers `DIM(ptr, k)` and `DOFS(ptr)`, and
a default for every other node shape. -/
structure AEnv where
  symVal : Sym → Int
  addrVal : Sym → Int
  dim : Int → Int
  dofs : Int
  other : Int

/-- Evaluation of the arithmetic fragment the synthetic address
expressions live in: constants, designators, Address-of designators,
add, mul, and calls of the `DIM`/`DOFS` helpers. -/
def evalA (env : AEnv) : Expr → Int
  | .constant _ _ v => v
  | .designator _ s => env.symVal s
  | .binaryOp _ .opAdd l r => evalA env l + evalA env r
  | .binaryOp _ .opMul l r => evalA env l * evalA env r
  | .specialOp _ .opAddress (.designator _ s) _ => env.addrVal s
  | .funcCall _ s args =>
    if s.name = "DIM" then
      match args with
      | [_, .constant _ _ k] => env.dim k
      | _ => env.other
    else if s.name = "DOFS" then env.dofs
    else env.other
  | _ => env.other

/-- The offset loop of CAstArrayDesignator::ToTac replayed on integer
values: the Horner-style accumulation the emitted expression denotes. -/
def hornerVal (dim : Int → Int) (size : Int) : Int → Nat → List Int → Int
  | acc, _, [] => acc
  | acc, i, v :: rest =>
    let a1 := if i = 0 then v else acc + v
    let a2 := if rest.isEmpty then a1 * size else a1 * dim ((i : Int) + 2)
    hornerVal dim size a2 (i + 1) rest

/-- Comparison semantics of the relational opcodes used as conditional
branches. -/
def evalRelop (op : EOp) (a b : Int) : Bool :=
  match op with
  | .opEqual => decide (a = b)
  | .opNotEqual => decide (a ≠ b)
  | .opLessThan => decide (a < b)
  | .opLessEqual => decide (a ≤ b)
  | .opBiggerThan => decide (b < a)
  | .opBiggerEqual => decide (b ≤ a)
  | _ => false

/-- Value of a TAC address operand under a store. -/
def evalTacAddr (σ : TacName → Int) : TacAddr → Int
  | .null => 0
  | .const v => v
  | .name n => σ n
  | .ref b _ => σ b

/-- Index of the defining occurrence of a label in an instruction
list. -/
def findLabel : List TacInstr → Nat → Option Nat
  | [], _ => none
  | i :: rest, l =>
    match i with
    | .labelDef l' =>
      if l' = l then some 0 else (findLabel rest l).map (· + 1)
    | _ => (findLabel rest l).map (· + 1)

/-- Result of executing a TAC fragment: control left the fragment by
jumping to a label not defined inside it (recording the indices of the
instructions executed on the way), the machine hit a construct the
model does not interpret, or the step budget ran out. -/
inductive ExecResult where
  | exited (l : Nat) (visited : List Nat) : ExecResult
  | stuck : ExecResult
  | outOfFuel : ExecResult
deriving DecidableEq

/-- Small-step execution of a TAC instruction list from a program
counter: labels fall through, gotos and taken conditional branches jump
to the label's defining index (or exit the fragment when the label is
external).  Assignments and arithmetic would update the store; the
boolean fragments the claims execute contain neither, and calls and
returns are not interpreted. -/
def execGo (prog : List TacInstr) (σ : TacName → Int) :
    Nat → Nat → List Nat → ExecResult
  | 0, _, _ => .outOfFuel
  | fuel + 1, pc, vis =>
    match prog[pc]? with
    | none => .stuck
    | some instr =>
      match instr with
      | .labelDef _ => execGo prog σ fuel (pc + 1) (vis ++ [pc])
      | .goto l =>
        match findLabel prog l with
        | some j => execGo prog σ fuel j (vis ++ [pc])
        | none => .exited l (vis ++ [pc])
      | .condBr op l a b =>
        if evalRelop op (evalTacAddr σ a) (evalTacAddr σ b) then
          match findLabel prog l with
          | some j => execGo prog σ fuel j (vis ++ [pc])
          | none => .exited l (vis ++ [pc])
        else execGo prog σ fuel (pc + 1) (vis ++ [pc])
      | _ => .stuck

/-- Value-mode lowerings that emit no instruction and return a fixed
operand (constants, designators and string constants). -/
def valueSimple : Expr → Option TacAddr
  | .constant _ _ v => some (.const (toInt32 v))
  | .designator _ s => some (.name (.sym s))
  | .stringConstant _ s _ => some (.name (.sym s))
  | _ => none

/-- Relational binary operators. -/
def isRelOp : EOp → Bool
  | .opEqual => true
  | .opNotEqual => true
  | .opLessThan => true
  | .opLessEqual => true
  | .opBiggerThan => true
  | .opBiggerEqual => true
  | _ => false

/-- Boolean atoms whose jumping-mode lowering is exactly the two
instructions `condBr op ltrue a b; goto lfalse`: bool designators, bool
constants, and relational operators over emission-free operands.  The
returned triple is `(op, a, b)`. -/
def atomJump : Expr → Option (EOp × TacAddr × TacAddr)
  | .designator tk s =>
    if matchO .tBool (Expr.designator tk s).getType then
      some (.opEqual, .name (.sym s), .const 1)
    else none
  | .constant tk ty v =>
    if matchO .tBool (Expr.constant tk ty v).getType then
      some (.opEqual, .const (toInt32 v), .const 1)
    else none
  | .binaryOp _ op l r =>
    if isRelOp op then
      match valueSimple l, valueSimple r with
      | some a, some b => some (op, a, b)
      | _, _ => none
    else none
  | _ => none

/-- An initial code block: nothing emitted, counters at zero, helper
symbols as the runtime declares them. -/
def emptyBlock : CodeBlock :=
  { instrs := []
    nextLabel := 0
    nextTemp := 0
    dimSym := { name := "DIM", returnType := .tInt,
                params := [{ name := "array", dataType := some (.tPtr .tNull) },
                           { name := "dim", dataType := some .tInt }] }
    dofsSym := { name := "DOFS", returnType := .tInt,
                 params := [{ name := "array", dataType := some (.tPtr .tNull) }] } }

/-- The array designator node state relevant to index mutation
(CAstArrayDesignator's `_idx` vector and `_done` flag). -/
structure ArrDesigNode where
  tok : Nat
  sym : Sym
  idx : List Expr
  done : Bool

/-- CAstArrayDesignator::AddIndex: `assert(!_done)`, then push the
index.  A `none` result is the assert abort. -/
def ArrDesigNode.AddIndex (ad : ArrDesigNode) (e : Expr) : Option ArrDesigNode :=
  if ad.done then none else some { ad with idx := ad.idx ++ [e] }

/-- CAstArrayDesignator::IndicesComplete: `assert(!_done)`, then close
the node. -/
def ArrDesigNode.IndicesComplete (ad : ArrDesigNode) : Option ArrDesigNode :=
  if ad.done then none else some { ad with done := true }

/-- Modelled from the spec: the numeric value of the `opCast` enumerator
is nonzero, so assigning it inside a condition yields a true operand. -/
def opCastTruthy : Bool := true

/-- The first constructor assertion of CAstSpecialOp, with its exact
semantics: `(oper == opAddress) || (oper == opDeref) || (oper = opCast)`.
The third disjunct is an assignment, so it overwrites the local
variable with `opCast` and evaluates to its (truthy) value.  Returns
the assertion's value and the local variable's value afterwards. -/
def specialOpTagCheck (oper : EOp) : Bool × EOp :=
  if oper = .opAddress then (true, oper)
  else if oper = .opDeref then (true, oper)
  else (opCastTruthy, .opCast)

/-- Both operator-related constructor assertions of CAstSpecialOp in
sequence (the non-null operand assertion is vacuous in the embedding):
the tag assertion above, then `((oper != opCast) && (type == NULL)) ||
((oper == opCast) && (type != NULL))` on the mutated local variable. -/
def specialOpCtorAsserts (oper : EOp) (castTypePresent : Bool) : Bool :=
  let r := specialOpTagCheck oper
  r.1 && ((decide (r.2 ≠ .opCast) && !castTypePresent) ||
          (decide (r.2 = .opCast) && castTypePresent))

/-- A parameter/argument pair whose declared parameter type is present
but fails to `Match` the argument's type. -/
def paramMismatch (pr : ParamSym × Expr) : Bool :=
  match pr.1.dataType with
  | some pt => !(matchO pt pr.2.getType)
  | none => false

theorem argsCheck_ok :
    ∀ (args : List Expr), (∀ a ∈ args, exprTypeCheck a = .ok ()) →
      argsCheck args = .ok () := by
  intro args h
  induction args with
  | nil => simp [argsCheck]
  | cons a rest ih =>
    have ha : exprTypeCheck a = .ok () := h a (List.mem_cons_self a rest)
    have hrest : ∀ x ∈ rest, exprTypeCheck x = .ok () :=
      fun x hx => h x (List.mem_cons_of_mem a hx)
    simp only [argsCheck, ha]
    exact ih hrest

theorem paramCheck_mismatch :
    ∀ (l : List (ParamSym × Expr)) (tk : Nat),
      (∀ pr ∈ l, pr.1.dataType ≠ none) →
      (∃ pr ∈ l, paramMismatch pr = true) →
      paramCheck tk l =
        .error (some (tk, "argument's type does not match with the parameter")) := by
  intro l tk
  induction l with
  | nil =>
    intro _ hex
    rcases hex with ⟨pr, hmem, _⟩
    exact absurd hmem (List.not_mem_nil pr)
  | cons pa rest ih =>
    intro hsome hex
    obtain ⟨p, a⟩ := pa
    have hps := hsome (p, a) (List.mem_cons_self _ _)
    cases hdt : p.dataType with
    | none => exact absurd hdt hps
    | some pt =>
      cases hm : matchO pt a.getType with
      | false => simp [paramCheck, hdt, hm]
      | true =>
        have hex' : ∃ pr ∈ rest, paramMismatch pr = true := by
          rcases hex with ⟨pr, hmem, hmis⟩
          rcases List.mem_cons.mp hmem with heq | htl
          · subst heq
            simp [paramMismatch, hdt, hm] at hmis
          · exact ⟨pr, htl, hmis⟩
        have htail := ih (fun pr h => hsome pr (List.mem_cons_of_mem _ h)) hex'
        simp [paramCheck, hdt, hm, htail]

/-- C2, counterexample: a call (token 10) to a procedure with one int
parameter, applied to a bool constant argument (token 20) that
type-checks on its own, fails with the call's token 10 — not with the
argument's token 20 as the claim states. -/
theorem funcCall_mismatch_token_counterexample :
    funcCallTypeCheck 10
      { name := "foo", returnType := .tNull,
        params := [{ name := "p", dataType := some .tInt }] }
      [.constant 20 .tBool 0] =
      .error (some (10, "argument's type does not match with the parameter")) ∧
    (10 : Nat) ≠ 20 := by
  constructor
  · simp [funcCallTypeCheck, argsCheck, exprTypeCheck, constantTypeCheck,
          paramCheck, CType.Match, matchO, Expr.getType]
  · decide

/-- C2, amended: for a call whose argument count equals the parameter
count, whose arguments all type-check individually and whose parameters
all have a declared type, if some parameter's declared type does not
Match the corresponding argument's type then TypeCheck fails — and the
reported token is the call's own token, not the argument's. -/
theorem funcCall_mismatch_reports_call_token :
    ∀ (tk : Nat) (sym : ProcSym) (args : List Expr),
      sym.params.length = args.length →
      (∀ a ∈ args, exprTypeCheck a = .ok ()) →
      (∀ pr ∈ sym.params.zip args, pr.1.dataType ≠ none) →
      (∃ pr ∈ sym.params.zip args, paramMismatch pr = true) →
      funcCallTypeCheck tk sym args =
        .error (some (tk, "argument's type does not match with the parameter")) := by
  intro tk sym args hlen hargs hsome hex
  have hac := argsCheck_ok args hargs
  have hpc := paramCheck_mismatch (sym.params.zip args) tk hsome hex
  simp [funcCallTypeCheck, hlen, hac, hpc]

theorem funcCall_mismatch_reports_call_token_witness :
    funcCallTypeCheck 11
      { name := "bar", returnType := .tNull,
        params := [{ name := "p", dataType := some .tInt }] }
      [.constant 22 .tBool 1] =
      .error (some (11, "argument's type does not match with the parameter")) := by
  apply funcCall_mismatch_reports_call_token 11
      { name := "bar", returnType := .tNull,
        params := [{ name := "p", dataType := some .tInt }] }
      [.constant 22 .tBool 1] rfl
  · intro a ha
    rcases List.mem_singleton.mp ha with rfl
    simp [exprTypeCheck, constantTypeCheck, CType.Match]
  · intro pr hpr
    rcases List.mem_singleton.mp hpr with rfl
    simp
  · refine ⟨({ name := "p", dataType := some .tInt }, .constant 22 .tBool 1), ?_, rfl⟩
    exact List.mem_singleton.mpr rfl

/-- C3: the operator-tag assertion of the CAstSpecialOp constructor
accepts every tag: its third disjunct is the assignment `oper = opCast`,
which overwrites the local variable and evaluates to a truthy value.
With a cast type supplied, the whole assertion sequence also passes for
a tag outside {Address, Deref, Cast} such as opAdd, where the claim
says construction must fail. -/
theorem specialOp_ctor_assert_accepts_any_tag :
    specialOpTagCheck .opAdd = (true, .opCast) ∧
    specialOpCtorAsserts .opAdd true = true ∧
    (EOp.opAdd ≠ .opAddress ∧ EOp.opAdd ≠ .opDeref ∧ EOp.opAdd ≠ .opCast) := by
  refine ⟨rfl, rfl, by decide⟩

theorem fillIndices_length (t : CType) :
    ∀ (cnt : Nat) (idx : List Expr), cnt ≤ idx.length →
      (fillIndices t cnt idx).length = max idx.length (cnt + t.rank) := by
  induction t with
  | tArr n inner ih =>
    intro cnt idx hle
    by_cases h : cnt ≥ idx.length
    · have hcnt : cnt = idx.length := le_antisymm hle h
      simp only [fillIndices, if_pos h]
      rw [ih (cnt + 1) (idx ++ [Expr.constant 0 .tInt 0]) (by simp; omega)]
      simp [CType.rank]
      omega
    · simp only [fillIndices, if_neg h]
      rw [ih (cnt + 1) idx (by omega)]
      simp [CType.rank]
      omega
  | tNull => intro cnt idx hle; simp [fillIndices, CType.rank]; omega
  | tInt => intro cnt idx hle; simp [fillIndices, CType.rank]; omega
  | tChar => intro cnt idx hle; simp [fillIndices, CType.rank]; omega
  | tBool => intro cnt idx hle; simp [fillIndices, CType.rank]; omega
  | tPtr b ihb => intro cnt idx hle; simp [fillIndices, CType.rank]; omega

theorem fillIndices_full (t : CType) :
    ∀ (cnt : Nat) (idx : List Expr), cnt + t.rank ≤ idx.length →
      fillIndices t cnt idx = idx := by
  induction t with
  | tArr n inner ih =>
    intro cnt idx hle
    simp only [CType.rank] at hle
    have hlt : cnt < idx.length := by omega
    simp only [fillIndices, if_neg (by omega : ¬ cnt ≥ idx.length)]
    exact ih (cnt + 1) idx (by omega)
  | tNull => intro cnt idx _; rfl
  | tInt => intro cnt idx _; rfl
  | tChar => intro cnt idx _; rfl
  | tBool => intro cnt idx _; rfl
  | tPtr b _ => intro cnt idx _; rfl

set_option maxHeartbeats 1000000 in
/-- C4, counterexample: a closed (done = true) rank-2 array designator
with a single index.  TAC lowering pads the node's index list with a
zero constant (the push_back at line 1816 of the source mutates `_idx`
in place), so the list length grows from 1 to 2 — the length is not
invariant under lowering, contrary to the claim. -/
theorem arrayDesignator_toTac_pads_counterexample :
    (fillIndices (CType.tArr 3 (.tArr 4 .tInt)) 0 [Expr.constant 0 .tInt 5]).length = 2 ∧
    ([Expr.constant 0 .tInt 5] : List Expr).length = 1 ∧
    (exprToTac 20
      (.arrayDesignator 0 { name := "a", dataType := some (.tArr 3 (.tArr 4 .tInt)) }
        [Expr.constant 0 .tInt 5] true)
      emptyBlock).isSome = true := by
  refine ⟨rfl, rfl, ?_⟩
  simp [exprToTac, exprToTacJ, paramsRevToTac, arrayPointerParts, fillIndices,
        arrayAddrExpr, buildOffsetGo, dimCallE, CType.innerAfterArrays, CType.GetSize,
        emptyBlock, CodeBlock.createLabel, CodeBlock.createTemp, CodeBlock.addInstr,
        matchO, CType.Match, Expr.getType, binOpResultType, typeOrNull, toInt32,
        List.enum, List.enumFrom]

/-- C4, amended: after IndicesComplete (state Closed), AddIndex never
adds an index (the assert aborts); however TAC lowering of a designator
with fewer indices than the array's rank appends zero-constant indices
to the node's list, bringing its length up to the rank, and leaves the
list unchanged exactly when the index count already reaches the rank. -/
theorem arrayDesignator_closed_index_behavior :
    (∀ (ad : ArrDesigNode) (e : Expr), ad.done = true → ad.AddIndex e = none) ∧
    (∀ (t : CType) (idx : List Expr),
       (fillIndices t 0 idx).length = max idx.length t.rank) ∧
    (∀ (t : CType) (idx : List Expr), t.rank ≤ idx.length →
       fillIndices t 0 idx = idx) := by
  refine ⟨?_, ?_, ?_⟩
  · intro ad e hdone
    simp [ArrDesigNode.AddIndex, hdone]
  · intro t idx
    have := fillIndices_length t 0 idx (Nat.zero_le _)
    simpa using this
  · intro t idx h
    exact fillIndices_full t 0 idx (by omega)

theorem arrayDesignator_closed_index_behavior_witness :
    ({ tok := 0, sym := { name := "a", dataType := some (.tArr 3 .tInt) },
       idx := [], done := true } : ArrDesigNode).AddIndex
      (.constant 0 .tInt 7) = none ∧
    fillIndices (CType.tArr 3 .tInt) 0 [Expr.constant 0 .tInt 1] =
      [Expr.constant 0 .tInt 1] := by
  constructor
  · exact arrayDesignator_closed_index_behavior.1 _ _ rfl
  · exact arrayDesignator_closed_index_behavior.2.2 (CType.tArr 3 .tInt)
      [Expr.constant 0 .tInt 1] (by simp [CType.rank])

/-- C7: a Constant type-checks exactly when its 64-bit value fits the
declared type — int in [-2^31, 2^31 - 1], char in [0, 255], bool in
{0, 1}; any other declared type is rejected; and a char range failure
carries the message "invalid value for character type constant". -/
theorem constant_typeCheck_ranges :
    ∀ (tk : Nat) (ty : CType) (v : Int),
      (constantTypeCheck tk ty v = .ok () ↔
        ((ty = .tInt ∧ -2147483648 ≤ v ∧ v ≤ 2147483647) ∨
         (ty = .tChar ∧ 0 ≤ v ∧ v ≤ 255) ∨
         (ty = .tBool ∧ (v = 0 ∨ v = 1)))) ∧
      (ty = .tChar → (v < 0 ∨ v > 255) →
        constantTypeCheck tk ty v =
          .error (some (tk, "invalid value for character type constant"))) := by
  intro tk ty v
  constructor
  · unfold constantTypeCheck
    cases ty <;> simp [CType.Match] <;> omega
  · intro hty hv
    subst hty
    unfold constantTypeCheck
    simp [CType.Match]
    omega

theorem constant_typeCheck_ranges_witness :
    constantTypeCheck 5 .tChar 256 =
      .error (some (5, "invalid value for character type constant")) ∧
    constantTypeCheck 6 .tInt 2147483647 = .ok () := by
  constructor
  · exact (constant_typeCheck_ranges 5 .tChar 256).2 rfl (by omega)
  · exact (constant_typeCheck_ranges 6 .tInt 2147483647).1.mpr
      (Or.inl ⟨rfl, by omega, by omega⟩)

/-- C8: TypeCheck of a Return statement.  When the enclosing scope's
return type Matches null, the check fails exactly on a present
expression (message "superfluous expression after return." at the
expression's token); otherwise a missing expression fails with
"expression expected after return." at the statement's token, a failing
expression propagates its own diagnostic, a type that does not Match
the return type fails with "return type mismatch.", and the remaining
cases succeed. -/
theorem return_typeCheck_rules :
    ∀ (tk : Nat) (rt : CType) (oe : Option Expr),
      (rt.Match .tNull = true →
        ((stmtTypeCheck (.ret tk rt oe) = .ok ()) ↔ oe = none) ∧
        (∀ e, oe = some e →
          stmtTypeCheck (.ret tk rt oe) =
            .error (some (e.tok, "superfluous expression after return.")))) ∧
      (rt.Match .tNull = false →
        (oe = none →
          stmtTypeCheck (.ret tk rt oe) =
            .error (some (tk, "expression expected after return."))) ∧
        (∀ e, oe = some e →
          (∀ w, exprTypeCheck e = .error w →
             stmtTypeCheck (.ret tk rt oe) = .error w) ∧
          (exprTypeCheck e = .ok () → matchO rt e.getType = false →
             stmtTypeCheck (.ret tk rt oe) =
               .error (some (e.tok, "return type mismatch."))) ∧
          (exprTypeCheck e = .ok () → matchO rt e.getType = true →
             stmtTypeCheck (.ret tk rt oe) = .ok ()))) := by
  intro tk rt oe
  constructor
  · intro hnull
    constructor
    · cases oe with
      | none => simp [stmtTypeCheck, hnull]
      | some e => simp [stmtTypeCheck, hnull]
    · intro e he
      subst he
      simp [stmtTypeCheck, hnull]
  · intro hnull
    constructor
    · intro he
      subst he
      simp [stmtTypeCheck, hnull]
    · intro e he
      subst he
      refine ⟨?_, ?_, ?_⟩
      · intro w hw
        simp [stmtTypeCheck, hnull, hw]
      · intro hok hmatch
        simp [stmtTypeCheck, hnull, hok, hmatch]
      · intro hok hmatch
        simp [stmtTypeCheck, hnull, hok, hmatch]

theorem return_typeCheck_rules_witness :
    stmtTypeCheck (.ret 3 .tNull (some (.constant 9 .tInt 1))) =
      .error (some (9, "superfluous expression after return.")) ∧
    stmtTypeCheck (.ret 4 .tInt none) =
      .error (some (4, "expression expected after return.")) := by
  constructor
  · exact ((return_typeCheck_rules 3 .tNull
      (some (.constant 9 .tInt 1))).1 rfl).2 _ rfl
  · exact ((return_typeCheck_rules 4 .tInt none).2 rfl).1 rfl

theorem scopeCheckRun_false :
    ∀ (os : List ChkOutcome) (w : TCErr),
      scopeCheckRun os (false, w) = (false, w) := by
  intro os w
  cases os with
  | nil => rfl
  | cons o os' => simp [scopeCheckRun]

theorem scopeCheckRun_all_ok :
    ∀ (outs : List ChkOutcome),
      (∀ x ∈ outs, x = ChkOutcome.ret true none) →
      scopeCheckRun outs (true, none) = (true, none) := by
  intro outs h
  induction outs with
  | nil => rfl
  | cons o rest ih =>
    have ho := h o (List.mem_cons_self _ _)
    subst ho
    simp only [scopeCheckRun, if_pos rfl]
    exact ih fun x hx => h x (List.mem_cons_of_mem _ hx)

/-- C9: CAstScope::TypeCheck visits the statement outcomes in order and
then the child-scope outcomes in declaration order; the first failing
check wins and its written (token, message) pair is the one reported;
an exception thrown during the traversal produces a false result; all
checks succeeding yields true; and the concrete scope check is exactly
this traversal over statement list then children. -/
theorem scope_typeCheck_first_failure :
    (∀ (pre rest : List ChkOutcome) (w : TCErr),
       (∀ x ∈ pre, x = ChkOutcome.ret true none) →
       scopeCheckRun (pre ++ ChkOutcome.ret false w :: rest) (true, none) =
         (false, w)) ∧
    (∀ (pre rest : List ChkOutcome),
       (∀ x ∈ pre, x = ChkOutcome.ret true none) →
       scopeCheckRun (pre ++ ChkOutcome.thrown :: rest) (true, none) =
         (false, none)) ∧
    (∀ outs : List ChkOutcome,
       (∀ x ∈ outs, x = ChkOutcome.ret true none) →
       scopeCheckRun outs (true, none) = (true, none)) ∧
    (∀ (stmts : List Stmt) (children : List Scope),
       Scope.typeCheck (.mk stmts children) =
         scopeCheckRun
           (stmts.map (fun s => outcomeOf (stmtTypeCheck s)) ++
            children.map (fun c => match c.typeCheck with
                                   | (b, w) => ChkOutcome.ret b w))
           (true, none)) := by
  refine ⟨?_, ?_, scopeCheckRun_all_ok, ?_⟩
  · intro pre rest w hpre
    induction pre with
    | nil =>
      simp only [List.nil_append, scopeCheckRun, if_pos rfl]
      cases w with
      | none => exact scopeCheckRun_false rest none
      | some e => exact scopeCheckRun_false rest (some e)
    | cons o pre' ih =>
      have ho := hpre o (List.mem_cons_self _ _)
      subst ho
      simp only [List.cons_append, scopeCheckRun, if_pos rfl]
      exact ih fun x hx => hpre x (List.mem_cons_of_mem _ hx)
  · intro pre rest hpre
    induction pre with
    | nil =>
      simp [scopeCheckRun]
    | cons o pre' ih =>
      have ho := hpre o (List.mem_cons_self _ _)
      subst ho
      simp only [List.cons_append, scopeCheckRun, if_pos rfl]
      exact ih fun x hx => hpre x (List.mem_cons_of_mem _ hx)
  · intro stmts children
    simp only [Scope.typeCheck]
    congr 2
    exact List.attach_map_val children
      fun c => ChkOutcome.ret c.typeCheck.1 c.typeCheck.2

theorem scope_typeCheck_first_failure_witness :
    scopeCheckRun
      [ChkOutcome.ret true none, ChkOutcome.ret false (some (7, "m")),
       ChkOutcome.ret false (some (8, "n"))] (true, none) =
      (false, some (7, "m")) ∧
    scopeCheckRun [ChkOutcome.ret true none, ChkOutcome.thrown] (true, none) =
      (false, none) := by
  constructor
  · exact scope_typeCheck_first_failure.1
      [ChkOutcome.ret true none] [ChkOutcome.ret false (some (8, "n"))]
      (some (7, "m"))
      (by intro x hx; rcases List.mem_singleton.mp hx with rfl; rfl)
  · exact scope_typeCheck_first_failure.2.1
      [ChkOutcome.ret true none] []
      (by intro x hx; rcases List.mem_singleton.mp hx with rfl; rfl)

/-- C10: value-mode lowering of a Constant emits the stored value cast
to a 32-bit int; the cast is the identity on every value accepted by
TypeCheck, and for a value outside [-2^31, 2^31 - 1] the emitted
constant is the value reduced modulo 2^32 into the signed 32-bit
range. -/
theorem constant_toTac_truncation :
    ∀ (m : Nat) (cb : CodeBlock) (tk : Nat) (ty : CType) (v : Int),
      (exprToTac (m + 1) (.constant tk ty v) cb =
        some (.const (toInt32 v), cb)) ∧
      (constantTypeCheck tk ty v = .ok () → toInt32 v = v) ∧
      ((v < -2147483648 ∨ v > 2147483647) →
         toInt32 v % 4294967296 = v % 4294967296 ∧
         -2147483648 ≤ toInt32 v ∧ toInt32 v ≤ 2147483647) := by
  intro m cb tk ty v
  refine ⟨?_, ?_, ?_⟩
  · simp [exprToTac]
  · intro h
    have hrange : -2147483648 ≤ v ∧ v ≤ 2147483647 := by
      rcases (constant_typeCheck_ranges tk ty v).1.mp h with
        ⟨_, h1, h2⟩ | ⟨_, h1, h2⟩ | ⟨_, h1 | h1⟩ <;> subst_vars <;> omega
    unfold toInt32
    omega
  · intro _
    unfold toInt32
    omega

theorem constant_toTac_truncation_witness :
    exprToTac 1 (.constant 0 .tInt 4294967297) emptyBlock =
      some (.const (toInt32 4294967297), emptyBlock) ∧
    toInt32 4294967297 % 4294967296 = 4294967297 % 4294967296 ∧
    toInt32 2147483000 = 2147483000 := by
  refine ⟨(constant_toTac_truncation 0 emptyBlock 0 .tInt 4294967297).1,
          ((constant_toTac_truncation 0 emptyBlock 0 .tInt 4294967297).2.2
            (by omega)).1,
          (constant_toTac_truncation 0 emptyBlock 0 .tInt 2147483000).2.1 ?_⟩
  simp [constantTypeCheck, CType.Match]

theorem addInstr_instrs (cb : CodeBlock) (i : TacInstr) :
    (cb.addInstr i).instrs = cb.instrs ++ [i] := rfl

/-- The whole ToTac family only appends to the instruction stream. -/
theorem toTac_append_only :
    ∀ (m : Nat),
      (∀ (e : Expr) (cb : CodeBlock) (r : TacAddr) (cb' : CodeBlock),
         exprToTac m e cb = some (r, cb') → ∃ d, cb'.instrs = cb.instrs ++ d) ∧
      (∀ (e : Expr) (cb : CodeBlock) (lt lf : Nat) (cb' : CodeBlock),
         exprToTacJ m e cb lt lf = some cb' → ∃ d, cb'.instrs = cb.instrs ++ d) ∧
      (∀ (ps : List (Nat × Expr)) (cb cb' : CodeBlock),
         paramsRevToTac m ps cb = some cb' → ∃ d, cb'.instrs = cb.instrs ++ d) ∧
      (∀ (s : Stmt) (cb : CodeBlock) (nx : Nat) (en : Option Nat) (cb' : CodeBlock),
         stmtToTac m s cb nx en = some cb' → ∃ d, cb'.instrs = cb.instrs ++ d) ∧
      (∀ (ss : List Stmt) (cb : CodeBlock) (en : Option Nat) (cb' : CodeBlock),
         stmtListToTac m ss cb en = some cb' → ∃ d, cb'.instrs = cb.instrs ++ d) := by
  intro m
  induction m with
  | zero =>
    refine ⟨?_, ?_, ?_, ?_, ?_⟩
    · intro e cb r cb' h; simp [exprToTac] at h
    · intro e cb lt lf cb' h; simp [exprToTacJ] at h
    · intro ps cb cb' h
      cases ps with
      | nil =>
        simp only [paramsRevToTac, Option.some.injEq] at h
        exact ⟨[], by simp [h]⟩
      | cons p rest =>
        obtain ⟨i, a⟩ := p
        simp [paramsRevToTac, exprToTac] at h
    · intro s cb nx en cb' h; simp [stmtToTac] at h
    · intro ss cb en cb' h
      cases ss with
      | nil =>
        simp only [stmtListToTac, Option.some.injEq] at h
        exact ⟨[], by simp [h]⟩
      | cons s rest => simp [stmtListToTac, stmtToTac] at h
  | succ n ih =>
    obtain ⟨ihE, ihJ, ihP, ihS, ihL⟩ := ih
    have hE : ∀ (e : Expr) (cb : CodeBlock) (r : TacAddr) (cb' : CodeBlock),
        exprToTac (n + 1) e cb = some (r, cb') →
        ∃ d, cb'.instrs = cb.instrs ++ d := by
      intro e cb r cb' h
      cases e with
      | binaryOp tk op l rr =>
        simp only [exprToTac, CodeBlock.createTemp, CodeBlock.createLabel] at h
        split at h
        · split at h
          · simp at h
          · next cb4 heq =>
            simp only [Option.some.injEq, Prod.mk.injEq] at h
            obtain ⟨-, rfl⟩ := h
            obtain ⟨d, hd⟩ := ihJ _ _ _ _ _ heq
            simp only [addInstr_instrs, hd, List.append_assoc]
            exact ⟨_, rfl⟩
        · split at h
          · simp at h
          · next p1 heq1 =>
            split at h
            · simp at h
            · next p2 heq2 =>
              simp only [Option.some.injEq, Prod.mk.injEq] at h
              obtain ⟨-, rfl⟩ := h
              obtain ⟨d1, hd1⟩ := ihE _ _ _ _ heq1
              obtain ⟨d2, hd2⟩ := ihE _ _ _ _ heq2
              simp only [addInstr_instrs, hd2, hd1, List.append_assoc]
              exact ⟨_, rfl⟩
      | unaryOp tk op o =>
        simp only [exprToTac, CodeBlock.createTemp, CodeBlock.createLabel] at h
        split at h
        · split at h
          · simp at h
          · next p1 heq1 =>
            simp only [Option.some.injEq, Prod.mk.injEq] at h
            obtain ⟨-, rfl⟩ := h
            obtain ⟨d1, hd1⟩ := ihE _ _ _ _ heq1
            simp only [addInstr_instrs, hd1, List.append_assoc]
            exact ⟨_, rfl⟩
        · split at h
          · exact ihE _ _ _ _ h
          · split at h
            · simp at h
            · next cb4 heq =>
              simp only [Option.some.injEq, Prod.mk.injEq] at h
              obtain ⟨-, rfl⟩ := h
              obtain ⟨d, hd⟩ := ihJ _ _ _ _ _ heq
              simp only [addInstr_instrs, hd, List.append_assoc]
              exact ⟨_, rfl⟩
      | specialOp tk op o ct =>
        simp only [exprToTac, CodeBlock.createTemp] at h
        split at h
        · simp at h
        · next p1 heq1 =>
          simp only [Option.some.injEq, Prod.mk.injEq] at h
          obtain ⟨-, rfl⟩ := h
          obtain ⟨d1, hd1⟩ := ihE _ _ _ _ heq1
          simp only [addInstr_instrs, hd1, List.append_assoc]
          exact ⟨_, rfl⟩
      | funcCall tk sym args =>
        simp only [exprToTac, CodeBlock.createTemp] at h
        split at h
        · split at h
          · simp at h
          · next cb1 heq =>
            simp only [Option.some.injEq, Prod.mk.injEq] at h
            obtain ⟨-, rfl⟩ := h
            obtain ⟨d, hd⟩ := ihP _ _ _ heq
            simp only [addInstr_instrs, hd, List.append_assoc]
            exact ⟨_, rfl⟩
        · split at h
          · simp at h
          · next cb1 heq =>
            simp only [Option.some.injEq, Prod.mk.injEq] at h
            obtain ⟨-, rfl⟩ := h
            obtain ⟨d, hd⟩ := ihP _ _ _ heq
            simp only [addInstr_instrs, hd, List.append_assoc]
            exact ⟨_, rfl⟩
      | designator tk s =>
        simp only [exprToTac, Option.some.injEq, Prod.mk.injEq] at h
        obtain ⟨-, rfl⟩ := h
        exact ⟨[], by simp⟩
      | arrayDesignator tk s idx dn =>
        simp only [exprToTac, CodeBlock.createTemp] at h
        split at h
        · simp at h
        · next t0 ap heq0 =>
          split at h
          · next k0 inner0 =>
            split at h
            · simp at h
            · next p1 heq1 =>
              obtain ⟨d1, hd1⟩ := ihE _ _ _ _ heq1
              split at h
              · simp only [Option.some.injEq, Prod.mk.injEq] at h
                obtain ⟨-, rfl⟩ := h
                exact ⟨d1, hd1⟩
              · simp only [Option.some.injEq, Prod.mk.injEq] at h
                obtain ⟨-, rfl⟩ := h
                exact ⟨d1, hd1⟩
              · simp only [Option.some.injEq, Prod.mk.injEq] at h
                obtain ⟨-, rfl⟩ := h
                simp only [addInstr_instrs, hd1, List.append_assoc]
                exact ⟨_, rfl⟩
          · simp at h
      | constant tk ty v =>
        simp only [exprToTac, Option.some.injEq, Prod.mk.injEq] at h
        obtain ⟨-, rfl⟩ := h
        exact ⟨[], by simp⟩
      | stringConstant tk s ty =>
        simp only [exprToTac, Option.some.injEq, Prod.mk.injEq] at h
        obtain ⟨-, rfl⟩ := h
        exact ⟨[], by simp⟩
    have hJ : ∀ (e : Expr) (cb : CodeBlock) (lt lf : Nat) (cb' : CodeBlock),
        exprToTacJ (n + 1) e cb lt lf = some cb' →
        ∃ d, cb'.instrs = cb.instrs ++ d := by
      intro e cb lt lf cb' h
      cases e with
      | binaryOp tk op l rr =>
        simp only [exprToTacJ, CodeBlock.createLabel] at h
        split at h
        · simp at h
        · split at h
          · split at h
            · simp at h
            · next cb2 heq1 =>
              obtain ⟨d2, hd2⟩ := ihJ _ _ _ _ _ h
              have hleft : ∃ d1, cb2.instrs = cb.instrs ++ d1 := by
                split at heq1
                · obtain ⟨d1, hd1⟩ := ihJ _ _ _ _ _ heq1
                  exact ⟨d1, by simpa using hd1⟩
                · obtain ⟨d1, hd1⟩ := ihJ _ _ _ _ _ heq1
                  exact ⟨d1, by simpa using hd1⟩
              obtain ⟨d1, hd1⟩ := hleft
              rw [hd2, addInstr_instrs, hd1]
              simp only [List.append_assoc]
              exact ⟨_, rfl⟩
          · split at h
            · simp at h
            · next p2 heq2 =>
              split at h
              · simp at h
              · next p3 heq3 =>
                simp only [Option.some.injEq] at h
                subst h
                obtain ⟨d1, hd1⟩ := ihE _ _ _ _ heq2
                obtain ⟨d2, hd2⟩ := ihE _ _ _ _ heq3
                simp only [addInstr_instrs, hd2, hd1, List.append_assoc]
                exact ⟨_, rfl⟩
      | unaryOp tk op o =>
        simp only [exprToTacJ] at h
        split at h
        · simp at h
        · exact ihJ _ _ _ _ _ h
      | specialOp tk op o ct =>
        simp only [exprToTacJ, Option.some.injEq] at h
        subst h
        exact ⟨[], by simp⟩
      | funcCall tk sym args =>
        simp only [exprToTacJ] at h
        split at h
        · simp at h
        · split at h
          · simp at h
          · next p1 heq1 =>
            simp only [Option.some.injEq] at h
            subst h
            obtain ⟨d1, hd1⟩ := ihE _ _ _ _ heq1
            simp only [addInstr_instrs, hd1, List.append_assoc]
            exact ⟨_, rfl⟩
      | designator tk s =>
        simp only [exprToTacJ] at h
        split at h
        · simp at h
        · split at h
          · simp at h
          · next p1 heq1 =>
            simp only [Option.some.injEq] at h
            subst h
            obtain ⟨d1, hd1⟩ := ihE _ _ _ _ heq1
            simp only [addInstr_instrs, hd1, List.append_assoc]
            exact ⟨_, rfl⟩
      | arrayDesignator tk s idx dn =>
        simp only [exprToTacJ] at h
        split at h
        · simp at h
        · next p1 heq1 =>
          simp only [Option.some.injEq] at h
          subst h
          obtain ⟨d1, hd1⟩ := ihE _ _ _ _ heq1
          simp only [addInstr_instrs, hd1, List.append_assoc]
          exact ⟨_, rfl⟩
      | constant tk ty v =>
        simp only [exprToTacJ] at h
        split at h
        · simp at h
        · split at h
          · simp at h
          · next p1 heq1 =>
            simp only [Option.some.injEq] at h
            subst h
            obtain ⟨d1, hd1⟩ := ihE _ _ _ _ heq1
            simp only [addInstr_instrs, hd1, List.append_assoc]
            exact ⟨_, rfl⟩
      | stringConstant tk s ty =>
        simp only [exprToTacJ, Option.some.injEq] at h
        subst h
        exact ⟨[], by simp⟩
    have hP : ∀ (ps : List (Nat × Expr)) (cb cb' : CodeBlock),
        paramsRevToTac (n + 1) ps cb = some cb' →
        ∃ d, cb'.instrs = cb.instrs ++ d := by
      intro ps
      induction ps with
      | nil =>
        intro cb cb' h
        simp only [paramsRevToTac, Option.some.injEq] at h
        exact ⟨[], by simp [h]⟩
      | cons p rest ihrest =>
        intro cb cb' h
        obtain ⟨i, a⟩ := p
        simp only [paramsRevToTac] at h
        split at h
        · simp at h
        · next p1 heq1 =>
          obtain ⟨d1, hd1⟩ := hE _ _ _ _ heq1
          obtain ⟨d2, hd2⟩ := ihrest _ _ h
          rw [hd2, addInstr_instrs, hd1]
          simp only [List.append_assoc]
          exact ⟨_, rfl⟩
    have hS : ∀ (s : Stmt) (cb : CodeBlock) (nx : Nat) (en : Option Nat)
        (cb' : CodeBlock),
        stmtToTac (n + 1) s cb nx en = some cb' →
        ∃ d, cb'.instrs = cb.instrs ++ d := by
      intro s cb nx en cb' h
      cases s with
      | assign tk lhs rhs =>
        simp only [stmtToTac] at h
        split at h
        · simp at h
        · next p1 heq1 =>
          split at h
          · simp at h
          · next p2 heq2 =>
            simp only [Option.some.injEq] at h
            subst h
            obtain ⟨d1, hd1⟩ := ihE _ _ _ _ heq1
            obtain ⟨d2, hd2⟩ := ihE _ _ _ _ heq2
            simp only [addInstr_instrs, hd2, hd1, List.append_assoc]
            exact ⟨_, rfl⟩
      | callS tk call =>
        simp only [stmtToTac] at h
        split at h
        · simp at h
        · next p1 heq1 =>
          simp only [Option.some.injEq] at h
          subst h
          obtain ⟨d1, hd1⟩ := ihE _ _ _ _ heq1
          simp only [addInstr_instrs, hd1, List.append_assoc]
          exact ⟨_, rfl⟩
      | ret tk rt oe =>
        cases oe with
        | some e =>
          simp only [stmtToTac] at h
          split at h
          · simp at h
          · next p1 heq1 =>
            simp only [Option.some.injEq] at h
            subst h
            obtain ⟨d1, hd1⟩ := ihE _ _ _ _ heq1
            simp only [addInstr_instrs, hd1, List.append_assoc]
            exact ⟨_, rfl⟩
        | none =>
          simp only [stmtToTac, Option.some.injEq] at h
          subst h
          simp only [addInstr_instrs, List.append_assoc]
          exact ⟨_, rfl⟩
      | ifStat tk cond ifBody elseBody =>
        simp only [stmtToTac, CodeBlock.createLabel] at h
        split at h
        · simp at h
        · next cb1 heq1 =>
          split at h
          · simp at h
          · next cb2 heq2 =>
            split at h
            · simp at h
            · next cb3 heq3 =>
              simp only [Option.some.injEq] at h
              subst h
              obtain ⟨d1, hd1⟩ := ihJ _ _ _ _ _ heq1
              obtain ⟨d2, hd2⟩ := ihL _ _ _ _ heq2
              obtain ⟨d3, hd3⟩ := ihL _ _ _ _ heq3
              simp only [addInstr_instrs, hd3, hd2, hd1, List.append_assoc]
              exact ⟨_, rfl⟩
      | whileStat tk cond body =>
        simp only [stmtToTac, CodeBlock.createLabel] at h
        split at h
        · simp at h
        · next cb1 heq1 =>
          split at h
          · simp at h
          · next cb2 heq2 =>
            simp only [Option.some.injEq] at h
            subst h
            obtain ⟨d1, hd1⟩ := ihJ _ _ _ _ _ heq1
            obtain ⟨d2, hd2⟩ := ihL _ _ _ _ heq2
            simp only [addInstr_instrs, hd2, hd1, List.append_assoc]
            exact ⟨_, rfl⟩
      | breakStat tk =>
        cases en with
        | some e2 =>
          simp only [stmtToTac, Option.some.injEq] at h
          subst h
          simp only [addInstr_instrs, List.append_assoc]
          exact ⟨_, rfl⟩
        | none => simp [stmtToTac] at h
    have hL : ∀ (ss : List Stmt) (cb : CodeBlock) (en : Option Nat)
        (cb' : CodeBlock),
        stmtListToTac (n + 1) ss cb en = some cb' →
        ∃ d, cb'.instrs = cb.instrs ++ d := by
      intro ss
      induction ss with
      | nil =>
        intro cb en cb' h
        simp only [stmtListToTac, Option.some.injEq] at h
        exact ⟨[], by simp [h]⟩
      | cons s rest ihrest =>
        intro cb en cb' h
        simp only [stmtListToTac, CodeBlock.createLabel] at h
        split at h
        · simp at h
        · next cb2 heq1 =>
          obtain ⟨d1, hd1⟩ := hS _ _ _ _ _ heq1
          obtain ⟨d2, hd2⟩ := ihrest _ _ _ h
          rw [hd2, addInstr_instrs, hd1]
          simp only [List.append_assoc]
          exact ⟨_, rfl⟩
    exact ⟨hE, hJ, hP, hS, hL⟩

/-- C6: lowering a While statement emits, in this exact order, the head
label (the first fresh label), the condition in jumping mode with the
body label and loop-end label (the second and third fresh labels) as
true/false targets, the body label, the body statements — each with its
own fresh per-statement next label and with break target end = the
loop-end label — then Goto head, the loop-end label, and Goto next; and
a Break statement emits exactly `Goto end` and requires end ≠ null. -/
theorem while_break_toTac :
    (∀ (m tk : Nat) (cond : Expr) (body : List Stmt) (cb : CodeBlock)
       (nx : Nat) (en : Option Nat) (cb' : CodeBlock),
       stmtToTac (m + 1) (.whileStat tk cond body) cb nx en = some cb' →
       ∃ (cbC cbB : CodeBlock) (condCode bodyCode : List TacInstr),
         exprToTacJ m cond
           { cb with nextLabel := cb.nextLabel + 3,
                     instrs := cb.instrs ++ [.labelDef cb.nextLabel] }
           (cb.nextLabel + 1) (cb.nextLabel + 2) = some cbC ∧
         stmtListToTac m body (cbC.addInstr (.labelDef (cb.nextLabel + 1)))
           (some (cb.nextLabel + 2)) = some cbB ∧
         cbC.instrs = cb.instrs ++ [.labelDef cb.nextLabel] ++ condCode ∧
         cbB.instrs = cbC.instrs ++ [.labelDef (cb.nextLabel + 1)] ++ bodyCode ∧
         cb'.instrs = cb.instrs ++ [.labelDef cb.nextLabel] ++ condCode
           ++ [.labelDef (cb.nextLabel + 1)] ++ bodyCode
           ++ [.goto cb.nextLabel, .labelDef (cb.nextLabel + 2), .goto nx]) ∧
    (∀ (m : Nat) (s : Stmt) (ss : List Stmt) (cb : CodeBlock) (en : Option Nat),
       stmtListToTac m (s :: ss) cb en =
         match stmtToTac m s { cb with nextLabel := cb.nextLabel + 1 }
               cb.nextLabel en with
         | none => none
         | some cb2 => stmtListToTac m ss (cb2.addInstr (.labelDef cb.nextLabel)) en) ∧
    (∀ (m tk : Nat) (cb : CodeBlock) (nx e : Nat),
       stmtToTac (m + 1) (.breakStat tk) cb nx (some e) =
         some (cb.addInstr (.goto e))) ∧
    (∀ (m tk : Nat) (cb : CodeBlock) (nx : Nat),
       stmtToTac (m + 1) (.breakStat tk) cb nx none = none) := by
  refine ⟨?_, ?_, ?_, ?_⟩
  · intro m tk cond body cb nx en cb' h
    simp only [stmtToTac, CodeBlock.createLabel] at h
    split at h
    · simp at h
    · next cb1 heq1 =>
      split at h
      · simp at h
      · next cb2 heq2 =>
        simp only [Option.some.injEq] at h
        subst h
        obtain ⟨d1, hd1⟩ := (toTac_append_only m).2.1 _ _ _ _ _ heq1
        obtain ⟨d2, hd2⟩ := (toTac_append_only m).2.2.2.2 _ _ _ _ heq2
        refine ⟨cb1, cb2, d1, d2, heq1, heq2, ?_, ?_, ?_⟩
        · simpa [CodeBlock.addInstr] using hd1
        · simpa [CodeBlock.addInstr] using hd2
        · simp only [addInstr_instrs, hd2, hd1, CodeBlock.addInstr]
          simp
  · intro m s ss cb en
    simp only [stmtListToTac, CodeBlock.createLabel]
  · intro m tk cb nx e
    simp [stmtToTac]
  · intro m tk cb nx
    simp [stmtToTac]

/-- Concrete result of lowering `while (x) break` into an empty block
with next label 50 (used to instantiate the While lowering theorem). -/
def whileWitnessBlock : CodeBlock :=
  { instrs := [.labelDef 0,
               .condBr .opEqual 1
                 (.name (.sym { name := "x", dataType := some .tBool }))
                 (.const 1),
               .goto 2, .labelDef 1, .goto 2, .labelDef 3, .goto 0,
               .labelDef 2, .goto 50]
    nextLabel := 4
    nextTemp := 0
    dimSym := emptyBlock.dimSym
    dofsSym := emptyBlock.dofsSym }

theorem while_break_toTac_witness :
    (∃ (cbC cbB : CodeBlock) (condCode bodyCode : List TacInstr),
       exprToTacJ 4 (.designator 1 { name := "x", dataType := some .tBool })
         { emptyBlock with nextLabel := emptyBlock.nextLabel + 3,
                           instrs := emptyBlock.instrs ++ [.labelDef emptyBlock.nextLabel] }
         (emptyBlock.nextLabel + 1) (emptyBlock.nextLabel + 2) = some cbC ∧
       stmtListToTac 4 [.breakStat 2]
         (cbC.addInstr (.labelDef (emptyBlock.nextLabel + 1)))
         (some (emptyBlock.nextLabel + 2)) = some cbB ∧
       cbC.instrs = emptyBlock.instrs ++ [.labelDef emptyBlock.nextLabel] ++ condCode ∧
       cbB.instrs = cbC.instrs ++ [.labelDef (emptyBlock.nextLabel + 1)] ++ bodyCode ∧
       whileWitnessBlock.instrs =
         emptyBlock.instrs ++ [.labelDef emptyBlock.nextLabel] ++ condCode
           ++ [.labelDef (emptyBlock.nextLabel + 1)] ++ bodyCode
           ++ [.goto emptyBlock.nextLabel, .labelDef (emptyBlock.nextLabel + 2),
               .goto 50]) ∧
    stmtToTac 1 (.breakStat 9) emptyBlock 50 (some 2) =
      some (emptyBlock.addInstr (.goto 2)) := by
  constructor
  · apply while_break_toTac.1 4 0
      (.designator 1 { name := "x", dataType := some .tBool })
      [.breakStat 2] emptyBlock 50 none whileWitnessBlock
    simp [stmtToTac, stmtListToTac, exprToTacJ, exprToTac, CodeBlock.createLabel,
          CodeBlock.addInstr, matchO, CType.Match, Expr.getType, whileWitnessBlock,
          emptyBlock]
  · exact while_break_toTac.2.2.1 0 9 emptyBlock 50 2

theorem valueSimple_toTac :
    ∀ (e : Expr) (a : TacAddr) (n : Nat) (cb : CodeBlock),
      valueSimple e = some a → exprToTac (n + 1) e cb = some (a, cb) := by
  intro e a n cb h
  cases e <;> simp only [valueSimple, Option.some.injEq] at h <;>
    first
      | exact absurd h (by simp)
      | (subst h; simp [exprToTac])

theorem atomJump_toTac :
    ∀ (e : Expr) (op : EOp) (a b : TacAddr) (n : Nat) (cb : CodeBlock)
      (lt lf : Nat),
      atomJump e = some (op, a, b) →
      exprToTacJ (n + 2) e cb lt lf =
        some ((cb.addInstr (.condBr op lt a b)).addInstr (.goto lf)) := by
  intro e op a b n cb lt lf h
  cases e with
  | binaryOp tk op' l r =>
    simp only [atomJump] at h
    split at h
    · next hrel =>
      split at h
      · next va vb hva hvb =>
        simp only [Option.some.injEq, Prod.mk.injEq] at h
        obtain ⟨rfl, rfl, rfl⟩ := h
        have hgt : matchO .tBool (Expr.binaryOp tk op' l r).getType = true := by
          cases op' <;> simp_all [isRelOp, Expr.getType, binOpResultType,
            matchO, CType.Match]
        have hnotand : ¬ (op' = .opAnd ∨ op' = .opOr) := by
          cases op' <;> simp_all [isRelOp]
        have hl := valueSimple_toTac l va n cb hva
        have hr := valueSimple_toTac r vb n cb hvb
        simp only [exprToTacJ, hgt, not_true_eq_false, if_false, if_neg hnotand,
          hl, hr]
      · simp at h
    · simp at h
  | designator tk s =>
    simp only [atomJump] at h
    split at h
    · next hbool =>
      simp only [Option.some.injEq, Prod.mk.injEq] at h
      obtain ⟨rfl, rfl, rfl⟩ := h
      simp only [exprToTacJ, hbool, not_true_eq_false, if_false, exprToTac]
    · simp at h
  | constant tk ty v =>
    simp only [atomJump] at h
    split at h
    · next hbool =>
      simp only [Option.some.injEq, Prod.mk.injEq] at h
      obtain ⟨rfl, rfl, rfl⟩ := h
      simp only [exprToTacJ, hbool, not_true_eq_false, if_false, exprToTac]
    · simp at h
  | unaryOp tk op' o => simp [atomJump] at h
  | specialOp tk op' o ct => simp [atomJump] at h
  | funcCall tk sym args => simp [atomJump] at h
  | arrayDesignator tk s idx dn => simp [atomJump] at h
  | stringConstant tk s ty => simp [atomJump] at h

set_option maxHeartbeats 1600000 in
/-- C5: jumping-mode lowering of And allocates a fresh label mid (the
next label counter), lowers the left operand with (mid, lfalse), emits
mid, then lowers the right operand with (ltrue, lfalse); Or lowers the
left operand with (ltrue, mid), emits mid, then the right operand with
(ltrue, lfalse).  Consequently, executing the emitted code for an And
whose left operand is false exits to lfalse visiting only the left
operand's instructions (indices < 2, never the right operand's code),
and for an Or whose left operand is true it exits to ltrue the same
way. -/
theorem binaryOp_shortcircuit_toTac :
    (∀ (m tk : Nat) (l r : Expr) (cb : CodeBlock) (lt lf : Nat)
       (cb'' : CodeBlock),
       exprToTacJ (m + 1) (.binaryOp tk .opAnd l r) cb lt lf = some cb'' →
       ∃ cbL, exprToTacJ m l { cb with nextLabel := cb.nextLabel + 1 }
                cb.nextLabel lf = some cbL ∧
              exprToTacJ m r (cbL.addInstr (.labelDef cb.nextLabel)) lt lf =
                some cb'') ∧
    (∀ (m tk : Nat) (l r : Expr) (cb : CodeBlock) (lt lf : Nat)
       (cb'' : CodeBlock),
       exprToTacJ (m + 1) (.binaryOp tk .opOr l r) cb lt lf = some cb'' →
       ∃ cbL, exprToTacJ m l { cb with nextLabel := cb.nextLabel + 1 }
                lt cb.nextLabel = some cbL ∧
              exprToTacJ m r (cbL.addInstr (.labelDef cb.nextLabel)) lt lf =
                some cb'') ∧
    (∀ (l r : Expr) (lt lf : Nat) (σ : TacName → Int) (opl : EOp)
       (a1 a2 : TacAddr) (opr : EOp) (b1 b2 : TacAddr) (cbJ : CodeBlock),
       atomJump l = some (opl, a1, a2) → atomJump r = some (opr, b1, b2) →
       lt ≠ 0 → lf ≠ 0 →
       exprToTacJ 5 (.binaryOp 0 .opAnd l r) emptyBlock lt lf = some cbJ →
       evalRelop opl (evalTacAddr σ a1) (evalTacAddr σ a2) = false →
       execGo cbJ.instrs σ 9 0 [] = .exited lf [0, 1] ∧
       ∀ p ∈ ([0, 1] : List Nat), p < 2) ∧
    (∀ (l r : Expr) (lt lf : Nat) (σ : TacName → Int) (opl : EOp)
       (a1 a2 : TacAddr) (opr : EOp) (b1 b2 : TacAddr) (cbJ : CodeBlock),
       atomJump l = some (opl, a1, a2) → atomJump r = some (opr, b1, b2) →
       lt ≠ 0 → lf ≠ 0 →
       exprToTacJ 5 (.binaryOp 0 .opOr l r) emptyBlock lt lf = some cbJ →
       evalRelop opl (evalTacAddr σ a1) (evalTacAddr σ a2) = true →
       execGo cbJ.instrs σ 9 0 [] = .exited lt [0] ∧
       ∀ p ∈ ([0] : List Nat), p < 2) := by
  have handS : ∀ (m tk : Nat) (l r : Expr) (cb : CodeBlock) (lt lf : Nat)
      (cb'' : CodeBlock),
      exprToTacJ (m + 1) (.binaryOp tk .opAnd l r) cb lt lf = some cb'' →
      ∃ cbL, exprToTacJ m l { cb with nextLabel := cb.nextLabel + 1 }
               cb.nextLabel lf = some cbL ∧
             exprToTacJ m r (cbL.addInstr (.labelDef cb.nextLabel)) lt lf =
               some cb'' := by
    intro m tk l r cb lt lf cb'' h
    simp only [exprToTacJ, CodeBlock.createLabel, Expr.getType,
      binOpResultType, matchO, CType.Match] at h
    simp only [decide_true_eq_true, not_true_eq_false] at h
    norm_num at h
    split at h
    · simp at h
    · next cb2 heq => exact ⟨cb2, heq, h⟩
  have horS : ∀ (m tk : Nat) (l r : Expr) (cb : CodeBlock) (lt lf : Nat)
      (cb'' : CodeBlock),
      exprToTacJ (m + 1) (.binaryOp tk .opOr l r) cb lt lf = some cb'' →
      ∃ cbL, exprToTacJ m l { cb with nextLabel := cb.nextLabel + 1 }
               lt cb.nextLabel = some cbL ∧
             exprToTacJ m r (cbL.addInstr (.labelDef cb.nextLabel)) lt lf =
               some cb'' := by
    intro m tk l r cb lt lf cb'' h
    simp only [exprToTacJ, CodeBlock.createLabel, Expr.getType,
      binOpResultType, matchO, CType.Match] at h
    simp only [decide_true_eq_true, not_true_eq_false] at h
    norm_num at h
    split at h
    · simp at h
    · next cb2 heq => exact ⟨cb2, heq, h⟩
  refine ⟨handS, horS, ?_, ?_⟩
  · intro l r lt lf σ opl a1 a2 opr b1 b2 cbJ hal har hlt hlf h5 hfalse
    obtain ⟨cbL, hL', hR'⟩ := handS 4 0 l r emptyBlock lt lf cbJ h5
    have hL := atomJump_toTac l opl a1 a2 2
      { emptyBlock with nextLabel := emptyBlock.nextLabel + 1 }
      emptyBlock.nextLabel lf hal
    obtain rfl := Option.some.inj (hL.symm.trans hL')
    have hR := atomJump_toTac r opr b1 b2 2
      (((({ emptyBlock with nextLabel := emptyBlock.nextLabel + 1 }).addInstr
          (TacInstr.condBr opl emptyBlock.nextLabel a1 a2)).addInstr
          (TacInstr.goto lf)).addInstr
          (TacInstr.labelDef emptyBlock.nextLabel)) lt lf har
    obtain rfl := Option.some.inj (hR.symm.trans hR')
    constructor
    · simp only [addInstr_instrs, emptyBlock, List.nil_append, List.append_assoc,
        List.cons_append, List.singleton_append]
      simp [execGo, findLabel, hfalse, Ne.symm hlf, Ne.symm hlt]
    · decide
  · intro l r lt lf σ opl a1 a2 opr b1 b2 cbJ hal har hlt hlf h5 htrue
    obtain ⟨cbL, hL', hR'⟩ := horS 4 0 l r emptyBlock lt lf cbJ h5
    have hL := atomJump_toTac l opl a1 a2 2
      { emptyBlock with nextLabel := emptyBlock.nextLabel + 1 }
      lt emptyBlock.nextLabel hal
    obtain rfl := Option.some.inj (hL.symm.trans hL')
    have hR := atomJump_toTac r opr b1 b2 2
      (((({ emptyBlock with nextLabel := emptyBlock.nextLabel + 1 }).addInstr
          (TacInstr.condBr opl lt a1 a2)).addInstr
          (TacInstr.goto emptyBlock.nextLabel)).addInstr
          (TacInstr.labelDef emptyBlock.nextLabel)) lt lf har
    obtain rfl := Option.some.inj (hR.symm.trans hR')
    constructor
    · simp only [addInstr_instrs, emptyBlock, List.nil_append, List.append_assoc,
        List.cons_append, List.singleton_append]
      simp [execGo, findLabel, htrue, Ne.symm hlf, Ne.symm hlt]
    · decide

/-- Concrete result of jump-lowering `x && y` into an empty block with
true label 7 and false label 8. -/
def andWitnessBlock : CodeBlock :=
  { instrs := [.condBr .opEqual 0
                 (.name (.sym { name := "x", dataType := some .tBool }))
                 (.const 1),
               .goto 8, .labelDef 0,
               .condBr .opEqual 7
                 (.name (.sym { name := "y", dataType := some .tBool }))
                 (.const 1),
               .goto 8]
    nextLabel := 1
    nextTemp := 0
    dimSym := emptyBlock.dimSym
    dofsSym := emptyBlock.dofsSym }

theorem binaryOp_shortcircuit_toTac_witness :
    execGo andWitnessBlock.instrs (fun _ => 0) 9 0 [] = .exited 8 [0, 1] ∧
    ∀ p ∈ ([0, 1] : List Nat), p < 2 := by
  apply binaryOp_shortcircuit_toTac.2.2.1
    (.designator 1 { name := "x", dataType := some .tBool })
    (.designator 2 { name := "y", dataType := some .tBool })
    7 8 (fun _ => 0) .opEqual
    (.name (.sym { name := "x", dataType := some .tBool })) (.const 1)
    .opEqual (.name (.sym { name := "y", dataType := some .tBool })) (.const 1)
    andWitnessBlock
  · rfl
  · rfl
  · decide
  · decide
  · simp [exprToTacJ, exprToTac, CodeBlock.createLabel, CodeBlock.addInstr,
      matchO, CType.Match, Expr.getType, binOpResultType, emptyBlock,
      andWitnessBlock]
  · decide

/-- The coefficient the flattened-offset formula assigns to the index
at position a of an n-index access: `DIM(ptr, a+2) * … * DIM(ptr, n) *
size`. -/
def dimCoeff (dim : Int → Int) (size : Int) (a n : Nat) : Int :=
  (∏ j in Finset.Ico (a + 2) (n + 1), dim (j : Int)) * size

theorem hornerVal_go (dim : Int → Int) (size : Int) :
    ∀ (vs : List Int) (v : Int) (p : Nat) (acc : Int), 1 ≤ p →
      hornerVal dim size acc p (v :: vs) =
        acc * dimCoeff dim size p (p + vs.length + 1) +
          ∑ k in Finset.range (vs.length + 1),
            (v :: vs).getD k 0 * dimCoeff dim size (p + k) (p + vs.length + 1) := by
  intro vs
  induction vs with
  | nil =>
    intro v p acc hp
    simp only [hornerVal, List.isEmpty_nil, if_true, if_neg (by omega : ¬ p = 0)]
    simp [dimCoeff]
    ring
  | cons u us ih =>
    intro v p acc hp
    have hstep : hornerVal dim size acc p (v :: u :: us) =
        hornerVal dim size ((acc + v) * dim ((p : Int) + 2)) (p + 1) (u :: us) := by
      simp [hornerVal, if_neg (by omega : ¬ p = 0)]
    have hco : dimCoeff dim size p (p + us.length + 2) =
        dim ((p : Int) + 2) * dimCoeff dim size (p + 1) (p + us.length + 2) := by
      unfold dimCoeff
      rw [Finset.prod_eq_prod_Ico_succ_bot
        (by omega : p + 2 < p + us.length + 2 + 1) (fun j => dim (j : Int))]
      rw [show p + 2 + 1 = p + 1 + 2 by ring]
      push_cast
      ring
    rw [hstep, ih u (p + 1) ((acc + v) * dim ((p : Int) + 2)) (by omega)]
    have hlen : p + 1 + us.length + 1 = p + us.length + 2 := by ring
    rw [hlen]
    simp only [List.length_cons]
    rw [show p + (us.length + 1) + 1 = p + us.length + 2 by ring]
    nth_rewrite 2 [Finset.sum_range_succ']
    simp only [List.getD_cons_succ, List.getD_cons_zero, Nat.add_zero]
    have hsum : ∑ k in Finset.range (us.length + 1),
        (u :: us).getD k 0 * dimCoeff dim size (p + (k + 1)) (p + us.length + 2) =
        ∑ k in Finset.range (us.length + 1),
        (u :: us).getD k 0 * dimCoeff dim size (p + 1 + k) (p + us.length + 2) := by
      refine Finset.sum_congr rfl (fun k _ => ?_)
      rw [show p + (k + 1) = p + 1 + k by ring]
    rw [hsum, hco]
    ring

theorem hornerVal_closed (dim : Int → Int) (size : Int) :
    ∀ (l : List Int) (a0 : Int), l ≠ [] →
      hornerVal dim size a0 0 l =
        ∑ k in Finset.range l.length,
          l.getD k 0 * dimCoeff dim size k l.length := by
  intro l a0 hne
  cases l with
  | nil => exact absurd rfl hne
  | cons v vs =>
    cases vs with
    | nil =>
      simp [hornerVal, dimCoeff]
    | cons u us =>
      have hstep : hornerVal dim size a0 0 (v :: u :: us) =
          hornerVal dim size (v * dim ((0 : Int) + 2)) 1 (u :: us) := by
        simp [hornerVal]
      rw [hstep, hornerVal_go dim size us u 1 _ (by omega)]
      have hco : dimCoeff dim size 0 (us.length + 2) =
          dim ((0 : Int) + 2) * dimCoeff dim size 1 (us.length + 2) := by
        unfold dimCoeff
        rw [Finset.prod_eq_prod_Ico_succ_bot
          (by omega : 0 + 2 < us.length + 2 + 1) (fun j => dim (j : Int))]
        rw [show 0 + 2 + 1 = 1 + 2 by ring]
        push_cast
        ring
      simp only [List.length_cons]
      rw [show 1 + us.length + 1 = us.length + 2 by ring]
      rw [show us.length + 1 + 1 = us.length + 2 by ring]
      nth_rewrite 2 [Finset.sum_range_succ']
      simp only [List.getD_cons_succ, List.getD_cons_zero, Nat.zero_add]
      have hsum : ∑ k in Finset.range (us.length + 1),
          (u :: us).getD k 0 * dimCoeff dim size (k + 1) (us.length + 2) =
          ∑ k in Finset.range (us.length + 1),
          (u :: us).getD k 0 * dimCoeff dim size (1 + k) (us.length + 2) := by
        refine Finset.sum_congr rfl (fun k _ => ?_)
        rw [show k + 1 = 1 + k by ring]
      rw [hsum, hco]
      ring

theorem evalA_buildOffsetGo (env : AEnv) (dimS : ProcSym) (ap : Expr)
    (size : Int) (hdim : dimS.name = "DIM") :
    ∀ (l : List Expr) (i : Nat) (acc : Expr),
      evalA env (buildOffsetGo dimS ap size acc i l) =
        hornerVal env.dim size (evalA env acc) i (l.map (evalA env)) := by
  intro l
  induction l with
  | nil => intro i acc; simp [buildOffsetGo, hornerVal]
  | cons e rest ih =>
    intro i acc
    simp only [buildOffsetGo, List.map_cons]
    rw [ih]
    simp only [hornerVal]
    congr 1
    by_cases hi : i = 0 <;> cases rest <;>
      simp [hi, evalA, dimCallE, hdim]

theorem getD_map_lt (f : Expr → Int) :
    ∀ (l : List Expr) (k : Nat) (d : Expr), k < l.length →
      (l.map f).getD k 0 = f (l.getD k d) := by
  intro l
  induction l with
  | nil => intro k d h; simp at h
  | cons x xs ih =>
    intro k d h
    cases k with
    | zero => simp
    | succ k2 => simpa using ih k2 d (by simpa using h)

/-- C1: the synthetic address expression built by value-mode lowering
of an R-index array designator denotes, under any interpretation of the
`DIM`/`DOFS` helpers and of the index expressions,
`ptr + (i_0*D_1*…*D_{R-1}*S + i_1*D_2*…*D_{R-1}*S + … + i_{R-1}*S +
DOFS(ptr))` with `D_k = DIM(ptr, k+1)` — the product for index i being
`DIM(ptr, i+2)*…*DIM(ptr, R)`; the operand returned by the lowering is
always a reference whose base names the computed address and whose
attached symbol is the original one; and the array pointer is the
designator itself for a pointer-typed symbol and Address-of the
designator otherwise. -/
theorem arrayDesignator_address_formula :
    (∀ (env : AEnv) (dimS dofsS : ProcSym) (ap : Expr) (size : Int)
       (idx : List Expr),
       idx ≠ [] → dimS.name = "DIM" → dofsS.name = "DOFS" →
       evalA env (arrayAddrExpr dimS dofsS ap size idx) =
         evalA env ap +
           ((∑ i in Finset.range idx.length,
               evalA env (idx.getD i (Expr.constant 0 .tInt 0)) *
                 ((∏ j in Finset.Ico (i + 2) (idx.length + 1),
                     env.dim (j : Int)) * size)) + env.dofs)) ∧
    (∀ (n : Nat) (cb : CodeBlock) (tk : Nat) (s : Sym) (idx : List Expr)
       (dn : Bool) (r : TacAddr) (cb' : CodeBlock),
       exprToTac n (.arrayDesignator tk s idx dn) cb = some (r, cb') →
       ∃ b, r = TacAddr.ref b s) ∧
    (∀ (s : Sym) (b : CType), s.dataType = some (.tPtr b) →
       arrayPointerParts s = some (b, .designator 0 s)) ∧
    (∀ (s : Sym) (k : Nat) (i : CType), s.dataType = some (.tArr k i) →
       arrayPointerParts s = some (.tArr k i,
         .specialOp 0 .opAddress (.designator 0 s) none)) := by
  refine ⟨?_, ?_, ?_, ?_⟩
  · intro env dimS dofsS ap size idx hne hdim hdofs
    have hadd : ∀ X Y : Expr,
        evalA env (Expr.binaryOp 0 .opAdd X Y) = evalA env X + evalA env Y :=
      fun X Y => rfl
    have hdofsv : evalA env (Expr.funcCall 0 dofsS [ap]) = env.dofs := by
      simp [evalA, hdofs]
    have hoff : evalA env
        (buildOffsetGo dimS ap size (Expr.constant 0 .tInt 0) 0 idx) =
        ∑ k in Finset.range idx.length, (idx.map (evalA env)).getD k 0 *
          dimCoeff env.dim size k idx.length := by
      rw [evalA_buildOffsetGo env dimS ap size hdim idx 0
        (Expr.constant 0 .tInt 0)]
      rw [hornerVal_closed env.dim size (idx.map (evalA env)) (evalA env
        (Expr.constant 0 .tInt 0)) (by simpa using hne)]
      simp
    have hsum : ∑ k in Finset.range idx.length, (idx.map (evalA env)).getD k 0 *
          dimCoeff env.dim size k idx.length =
        ∑ i in Finset.range idx.length,
          evalA env (idx.getD i (Expr.constant 0 .tInt 0)) *
            ((∏ j in Finset.Ico (i + 2) (idx.length + 1),
                env.dim (j : Int)) * size) := by
      refine Finset.sum_congr rfl (fun k hk => ?_)
      rw [getD_map_lt (evalA env) idx k (Expr.constant 0 .tInt 0)
        (Finset.mem_range.mp hk)]
      rfl
    unfold arrayAddrExpr
    rw [hadd, hadd, hdofsv, hoff, hsum]
  · intro n cb tk s idx dn r cb' h
    cases n with
    | zero => simp [exprToTac] at h
    | succ n2 =>
      simp only [exprToTac, CodeBlock.createTemp] at h
      split at h
      · simp at h
      · next t0 ap heq0 =>
        split at h
        · next k0 inner0 =>
          split at h
          · simp at h
          · next p1 heq1 =>
            split at h
            · simp only [Option.some.injEq, Prod.mk.injEq] at h
              obtain ⟨hr, -⟩ := h
              exact ⟨_, hr.symm⟩
            · simp only [Option.some.injEq, Prod.mk.injEq] at h
              obtain ⟨hr, -⟩ := h
              exact ⟨_, hr.symm⟩
            · simp only [Option.some.injEq, Prod.mk.injEq] at h
              obtain ⟨hr, -⟩ := h
              exact ⟨_, hr.symm⟩
        · simp at h
  · intro s b hdt
    simp [arrayPointerParts, hdt]
  · intro s k i hdt
    simp [arrayPointerParts, hdt]

/-- Concrete valuation for instantiating the array-address theorem. -/
def envW : AEnv :=
  { symVal := fun _ => 0
    addrVal := fun _ => 100
    dim := fun _ => 10
    dofs := 8
    other := 0 }

theorem arrayDesignator_address_formula_witness :
    (evalA envW (arrayAddrExpr emptyBlock.dimSym emptyBlock.dofsSym
        (Expr.designator 0
          { name := "a", dataType := some (.tArr 3 (.tArr 4 .tInt)) })
        4 [Expr.constant 0 .tInt 2, Expr.constant 0 .tInt 3]) =
      evalA envW (Expr.designator 0
          { name := "a", dataType := some (.tArr 3 (.tArr 4 .tInt)) }) +
        ((∑ i in Finset.range
             ([Expr.constant 0 .tInt 2, Expr.constant 0 .tInt 3] :
               List Expr).length,
            evalA envW (([Expr.constant 0 .tInt 2, Expr.constant 0 .tInt 3] :
                List Expr).getD i (Expr.constant 0 .tInt 0)) *
              ((∏ j in Finset.Ico (i + 2)
                  (([Expr.constant 0 .tInt 2, Expr.constant 0 .tInt 3] :
                    List Expr).length + 1), envW.dim (j : Int)) * 4)) +
          envW.dofs)) ∧
    arrayPointerParts { name := "p", dataType := some (.tPtr (.tArr 3 .tInt)) } =
      some (.tArr 3 .tInt,
        .designator 0 { name := "p", dataType := some (.tPtr (.tArr 3 .tInt)) }) := by
  constructor
  · exact arrayDesignator_address_formula.1 envW emptyBlock.dimSym
      emptyBlock.dofsSym _ 4 _ (by simp) rfl rfl
  · exact arrayDesignator_address_formula.2.2.1 _ (.tArr 3 .tInt) rfl

end SnuPL
